import Mathlib

/-!
Verification development for the DataLayer singleton wallet
(src/chia/data_layer/data_layer_wallet.py).

The wallet's state engine is embedded shallowly:

* 32-byte values (`B32`) form a free term algebra whose constructors model the
  deterministic hash derivations performed by the cryptographic collaborators
  (coin names, host-puzzle tree hashes, announcement names).  The hashing code
  itself (`chia.wallet.db_wallet.db_wallet_puzzles`, `Coin.name`,
  `Announcement.name`) is not part of the source under review; the spec
  declares the derivations deterministic, which the free algebra captures.
* The singleton / launcher / transaction stores are association lists; their
  query functions are modelled from the spec (section 5, shared resource API)
  because the store implementations are likewise outside the reviewed source.
* Each wallet operation (`new_launcher_spend`, `generate_new_reporter`,
  `create_update_state_spend`, `singleton_removed`,
  `potentially_handle_resubmit`) is translated line by line from the source
  into a pure state-passing function.
-/

namespace DataLayer

/-- Modelled from the spec: 32-byte identifiers produced by the (out of scope)
cryptographic collaborators.  Each constructor is one deterministic derivation:
`coinName parent puzhash amount` is `Coin(parent, puzhash, amount).name()`,
`hostFullPuz inner root launcher` is
`create_host_fullpuz(inner, root, launcher).get_tree_hash(...)`,
`hostLayerPuz inner root` is
`create_host_layer_puzzle(inner, root).get_tree_hash(...)`,
`announceOnlyPuz` is the tree hash of the ephemeral constant-emitter inner
puzzle built in `create_update_state_spend` (it curries the new puzzle hash,
the amount, the launcher id and the root),
`annName origin msg` is `Announcement(origin, msg).name()`, and
`puzzleForPk pk` is the tree hash of `puzzle_for_pk(pk)`.
`raw n` stands for arbitrary externally supplied 32-byte values. -/
inductive B32 where
  | raw : Nat → B32
  | coinName : B32 → B32 → Nat → B32
  | hostFullPuz : B32 → B32 → B32 → B32
  | hostLayerPuz : B32 → B32 → B32
  | announceOnlyPuz : B32 → Nat → B32 → B32 → B32
  | annName : B32 → Nat → B32
  | puzzleForPk : Nat → B32
  deriving DecidableEq, Repr

/-- A coin: parent coin id, puzzle hash, amount (uint64 modelled as Nat). -/
structure Coin where
  parent_coin_info : B32
  puzzle_hash : B32
  amount : Nat
  deriving DecidableEq, Repr

/-- `Coin.name()` of the source: the deterministic coin-id derivation. -/
def Coin.name (c : Coin) : B32 :=
  B32.coinName c.parent_coin_info c.puzzle_hash c.amount

/-- `chia.wallet.lineage_proof.LineageProof`: all three fields optional. -/
structure LineageProof where
  parent_name : Option B32
  inner_puzzle_hash : Option B32
  amount : Option Nat
  deriving DecidableEq, Repr

/-- The `SingletonRecord` dataclass of the source, field for field. -/
structure SingletonRecord where
  coin_id : B32
  launcher_id : B32
  root : B32
  inner_puzzle_hash : B32
  confirmed : Bool
  confirmed_at_height : Nat
  lineage_proof : LineageProof
  generation : Nat
  timestamp : Nat
  deriving DecidableEq, Repr

/-- `chia.types.announcement.Announcement` with the message as a byte value;
the only message the wallet uses is the single byte `$` (0x24 = 36). -/
structure Announcement where
  origin : B32
  message : Nat
  deriving DecidableEq, Repr

/-- `Announcement.name()`. -/
def Announcement.name (a : Announcement) : B32 :=
  B32.annName a.origin a.message

/-- One evaluated CLVM condition as read by `singleton_removed`:
`condition[0]` is the opcode, `condition[1]` the puzzle hash, `condition[2]`
the amount, and `condition[3]` (absent when the condition list is too short)
the memo list.  CREATE_COIN is opcode 51. -/
structure Condition where
  opcode : Nat
  puzzle_hash : B32
  amount : Nat
  memos : Option (List B32)
  deriving DecidableEq, Repr

/-- One entry of the `primaries` list handed to `make_solution`. -/
structure Primary where
  puzzlehash : B32
  amount : Nat
  memos : List B32
  deriving DecidableEq, Repr

/-- The parts of a `SpendBundle` the wallet inspects: removals, `fees()` and
the number of coin spends. -/
structure SpendBundleM where
  removals : List Coin
  additions : List Coin
  fees : Nat
  coin_spend_count : Nat
  deriving DecidableEq, Repr

/-- The parts of a `TransactionRecord` the wallet reads or writes. -/
structure TxRecord where
  name : B32
  wallet_id : Nat
  confirmed : Bool
  spend_bundle : Option SpendBundleM
  additions : List Coin
  removals : List Coin
  fee_amount : Nat
  deriving DecidableEq, Repr

/-- The shared mutable state: the singleton store, the transaction store
(holding both DL and standard-wallet transactions) and the launcher rows. -/
structure WalletState where
  dl_store : List SingletonRecord
  tx_store : List TxRecord
  launchers : List (B32 × Coin)
  deriving DecidableEq, Repr

/-- Wallet id of the external standard wallet. -/
def stdWalletId : Nat := 1

/-- Wallet id of the data layer wallet. -/
def dlWalletId : Nat := 2

/-- External collaborators create_update_state_spend consults: the derivation
index (`puzzle_store.get_derivation_record_for_puzzle_hash`, returning the
public key recorded for a puzzle hash), the standard wallet's freshly derived
puzzle (by its tree hash), and the fee transaction the standard wallet would
produce (`create_tandem_xch_tx`). -/
structure Env where
  derivation : B32 → Option Nat
  newPuzzleHash : B32
  chiaTxName : B32
  chiaTxRemovals : List Coin

/-- Error kinds raised by the authoring path. -/
inductive DLError where
  | notTracked
  | isPending
  | insufficientLineage
  | parentNotFound
  | noLauncherInfo
  | notOwned
  | assertionFailed
  deriving DecidableEq, Repr

/-! ## Store operations

The key-value stores are external collaborators (`dl_store`, `tx_store`);
their implementations are not part of the reviewed source, so the queries are
modelled from the spec's shared-resource API (section 5). -/

/-- Modelled from the spec: `get_unconfirmed_singletons(launcher)` returns the
unconfirmed records of one launcher. -/
def get_unconfirmed_singletons (store : List SingletonRecord) (launcher_id : B32) :
    List SingletonRecord :=
  store.filter (fun r => r.launcher_id == launcher_id && !r.confirmed)

/-- Modelled from the spec: `get_all_singletons_for_launcher(launcher,
min_gen)` returns every record (confirmed or not) of the launcher whose
generation is at least `min_gen`. -/
def get_all_singletons_for_launcher (store : List SingletonRecord)
    (launcher_id : B32) (min_generation : Nat) : List SingletonRecord :=
  store.filter (fun r => r.launcher_id == launcher_id && decide (min_generation ≤ r.generation))

/-- Modelled from the spec: `get_singleton_record(coin_id)` looks a record up
by its coin id. -/
def get_singleton_record (store : List SingletonRecord) (coin_id : B32) :
    Option SingletonRecord :=
  store.find? (fun r => r.coin_id == coin_id)

/-- One fold step selecting the record of largest generation. -/
def laterGeneration (acc : Option SingletonRecord) (r : SingletonRecord) :
    Option SingletonRecord :=
  match acc with
  | none => some r
  | some b => if b.generation < r.generation then some r else some b

/-- Modelled from the spec: `get_latest_singleton(launcher)` returns the
record of largest generation for the launcher, unconfirmed records included. -/
def get_latest_singleton (store : List SingletonRecord) (launcher_id : B32) :
    Option SingletonRecord :=
  (store.filter (fun r => r.launcher_id == launcher_id)).foldl laterGeneration none

/-- Modelled from the spec: the `set_confirmed(coin_id, height, timestamp)`
transition, the only permitted record mutation. -/
def set_confirmed (store : List SingletonRecord) (coin_id : B32)
    (height timestamp : Nat) : List SingletonRecord :=
  store.map (fun r =>
    if r.coin_id == coin_id then
      { r with confirmed := true, confirmed_at_height := height, timestamp := timestamp }
    else r)

/-- Modelled from the spec: `delete_singleton_record(coin_id)`. -/
def delete_singleton_record (store : List SingletonRecord) (coin_id : B32) :
    List SingletonRecord :=
  store.filter (fun r => !(r.coin_id == coin_id))

/-- Modelled from the spec: `tx_store.get_transaction_record(name)`. -/
def get_transaction_record (txs : List TxRecord) (name : B32) : Option TxRecord :=
  txs.find? (fun t => t.name == name)

/-- Modelled from the spec: launcher-row lookup `dl_store.get_launcher`. -/
def get_launcher (launchers : List (B32 × Coin)) (launcher_id : B32) : Option Coin :=
  (launchers.find? (fun p => p.1 == launcher_id)).map Prod.snd

/-! ## Launching -/

/-- Decoded form of `launch_solution_to_singleton_info(solution)`:
`(full_puzhash, amount, root, inner_puzhash)`. -/
structure LaunchSolution where
  full_puzhash : B32
  amount : Nat
  root : B32
  inner_puzhash : B32
  deriving DecidableEq, Repr

/-- `match_dl_launcher` after the puzzle-reveal equality test and the solution
decode have succeeded: the solution must commit to the host full puzzle of its
own inner puzzle hash and root, and the amount must be odd. -/
def match_dl_launcher (launcher_coin : Coin) (sol : LaunchSolution) : Bool :=
  sol.full_puzhash == B32.hostFullPuz sol.inner_puzhash sol.root launcher_coin.name
    && sol.amount % 2 == 1

/-- Outcome of `new_launcher_spend`. -/
inductive LaunchResult where
  | promoted
  | alreadyProcessed
  | insertedGenesis
  deriving DecidableEq, Repr

/-- `new_launcher_spend` (source lines 242-303), with the solution already
decoded and the block height and timestamp supplied by the chain collaborator.
The interest registrations and the wallet coin record are chain-interest side
effects outside the modelled state. -/
def new_launcher_spend (s : WalletState) (launcher_coin : Coin)
    (sol : LaunchSolution) (height timestamp : Nat) : WalletState × LaunchResult :=
  let launcher_id := launcher_coin.name
  let new_singleton : Coin := ⟨launcher_id, sol.full_puzhash, sol.amount⟩
  match get_latest_singleton s.dl_store launcher_id with
  | some r =>
    if r.coin_id == new_singleton.name && !r.confirmed then
      ({ s with dl_store := set_confirmed s.dl_store r.coin_id height timestamp,
                launchers := s.launchers ++ [(launcher_id, launcher_coin)] },
       LaunchResult.promoted)
    else
      (s, LaunchResult.alreadyProcessed)
  | none =>
    let genesisRecord : SingletonRecord :=
      { coin_id := new_singleton.name
        launcher_id := launcher_id
        root := sol.root
        inner_puzzle_hash := sol.inner_puzhash
        confirmed := true
        confirmed_at_height := height
        lineage_proof :=
          ⟨some launcher_id, some (B32.hostLayerPuz sol.inner_puzhash sol.root), some sol.amount⟩
        generation := 0
        timestamp := timestamp }
    ({ s with dl_store := s.dl_store ++ [genesisRecord],
              launchers := s.launchers ++ [(launcher_id, launcher_coin)] },
     LaunchResult.insertedGenesis)

/-- The pending generation-0 record `generate_new_reporter` (source lines
309-392) inserts: the launcher coin is built on the selected origin coin, the
inner puzzle is freshly derived (its tree hash is `inner_puzzle_hash`). -/
def generate_new_reporter_record (launcher_parent_name : B32)
    (launcher_puzzle_hash : B32) (inner_puzzle_hash : B32) (initial_root : B32) :
    SingletonRecord :=
  let launcher_name : B32 := B32.coinName launcher_parent_name launcher_puzzle_hash 1
  { coin_id :=
      B32.coinName launcher_name (B32.hostFullPuz inner_puzzle_hash initial_root launcher_name) 1
    launcher_id := launcher_name
    root := initial_root
    inner_puzzle_hash := inner_puzzle_hash
    confirmed := false
    confirmed_at_height := 0
    lineage_proof :=
      ⟨some launcher_name, some (B32.hostLayerPuz inner_puzzle_hash initial_root), some 1⟩
    generation := 0
    timestamp := 0 }

/-! ## The derivation invariant -/

/-- The derivation invariant of the spec: a record's coin id is the coin name
computed from its lineage parent, the host full puzzle hash of its own inner
puzzle hash, root and launcher id, and its lineage amount. -/
def invariantB (r : SingletonRecord) : Bool :=
  match r.lineage_proof.parent_name, r.lineage_proof.amount with
  | some pn, some amt =>
    r.coin_id == B32.coinName pn (B32.hostFullPuz r.inner_puzzle_hash r.root r.launcher_id) amt
  | _, _ => false

/-! ## Successor authoring -/

/-- `get_spendable_singleton_info` (source lines 685-716): resolve the latest
record, require it confirmed with complete lineage data, and fetch the parent
record's lineage proof (synthesizing one from the launcher row when the parent
is the launcher itself). -/
def get_spendable_singleton_info (s : WalletState) (launcher_id : B32) :
    Except DLError (SingletonRecord × LineageProof) :=
  match get_latest_singleton s.dl_store launcher_id with
  | none => Except.error DLError.notTracked
  | some r =>
    if !r.confirmed then Except.error DLError.isPending
    else
      match r.lineage_proof.parent_name, r.lineage_proof.amount with
      | some pn, some _ =>
        match get_singleton_record s.dl_store pn with
        | some parent => Except.ok (r, parent.lineage_proof)
        | none =>
          if pn != launcher_id then Except.error DLError.parentNotFound
          else
            match get_launcher s.launchers launcher_id with
            | none => Except.error DLError.noLauncherInfo
            | some c => Except.ok (r, ⟨some c.parent_coin_info, none, some c.amount⟩)
      | _, _ => Except.error DLError.insufficientLineage

/-- Everything `create_update_state_spend` produces besides the store update:
the pending record(s), the primaries list of the inner solution, the coins
spent by the singleton bundle as assembled at source line 594 (before any fee
aggregation), the puzzle-announcement names the inner solution asserts, the
caller's `puzzle_announcements_to_consume` structure as it stands after the
call (the source appends to it in place), and the returned transactions. -/
structure UpdateStateResult where
  new_record : SingletonRecord
  eph_record : Option SingletonRecord
  primaries : List Primary
  dl_coin_spends : List Coin
  asserted_puzzle_announcements : Option (List B32)
  caller_puzzle_announcements_after : Option (List Announcement)
  txs : List TxRecord
  deriving DecidableEq, Repr

/-- The body of `create_update_state_spend` after all its raises have been
passed (source lines 440-636): `r` is the latest record, `pn`/`amt` its
lineage parent name and amount, `pk` the public key of the derivation record
found for `r.inner_puzzle_hash`. -/
def buildUpdateState (env : Env) (s : WalletState) (launcher_id : B32)
    (r : SingletonRecord) (pn : B32) (amt : Nat) (pk : Nat)
    (root_hash : Option B32) (new_puz_hash : Option B32) (new_amount : Option Nat)
    (fee : Nat) (puzzle_announcements_to_consume : Option (List Announcement))
    (add_pending_singleton : Bool) (announce_new_state : Bool) :
    UpdateStateResult × WalletState :=
  let root := root_hash.getD r.root
  let newPh := new_puz_hash.getD env.newPuzzleHash
  let nextFull := B32.hostFullPuz newPh root launcher_id
  let current_coin : Coin :=
    ⟨pn, B32.hostFullPuz (B32.puzzleForPk pk) r.root launcher_id, amt⟩
  let baseRecord : SingletonRecord :=
    { coin_id := B32.coinName current_coin.name nextFull amt
      launcher_id := launcher_id
      root := root
      inner_puzzle_hash := newPh
      confirmed := false
      confirmed_at_height := 0
      lineage_proof := ⟨some r.coin_id, some newPh, some amt⟩
      generation := r.generation + 1
      timestamp := 0 }
  let announceHash := B32.announceOnlyPuz newPh amt launcher_id root
  let secondFull := B32.hostFullPuz announceHash root launcher_id
  let second_coin : Coin := ⟨current_coin.name, secondFull, amt⟩
  let root_announce : Announcement := ⟨secondFull, 36⟩
  let localPuzAnns : Option (List Announcement) :=
    if announce_new_state then
      match puzzle_announcements_to_consume with
      | none => some [root_announce]
      | some l => some (l ++ [root_announce])
    else puzzle_announcements_to_consume
  let callerPuzAnnsAfter : Option (List Announcement) :=
    if announce_new_state then
      match puzzle_announcements_to_consume with
      | none => none
      | some l => some (l ++ [root_announce])
    else puzzle_announcements_to_consume
  let second_record : SingletonRecord :=
    { coin_id := second_coin.name
      launcher_id := launcher_id
      root := root
      inner_puzzle_hash := announceHash
      confirmed := false
      confirmed_at_height := 0
      lineage_proof := ⟨some second_coin.parent_coin_info, some announceHash, some amt⟩
      generation := r.generation + 1
      timestamp := 0 }
  let new_record : SingletonRecord :=
    if announce_new_state then
      { baseRecord with
        coin_id := B32.coinName second_coin.name nextFull amt
        lineage_proof := ⟨some second_coin.name, some nextFull, some amt⟩
        generation := second_record.generation + 1 }
    else baseRecord
  let primary : Primary :=
    ⟨if announce_new_state then announceHash else newPh,
     new_amount.getD amt, [launcher_id, root, newPh]⟩
  let dl_coin_spends : List Coin :=
    if announce_new_state then [current_coin, second_coin] else [current_coin]
  let dlAdditions : List Coin :=
    if announce_new_state then
      [⟨current_coin.name, secondFull, primary.amount⟩, ⟨second_coin.name, nextFull, amt⟩]
    else [⟨current_coin.name, nextFull, primary.amount⟩]
  let dlBundle : SpendBundleM :=
    { removals := dl_coin_spends ++ (if 0 < fee then env.chiaTxRemovals else [])
      additions := dlAdditions
      fees := fee
      coin_spend_count :=
        dl_coin_spends.length + (if 0 < fee then env.chiaTxRemovals.length else 0) }
  let dl_tx : TxRecord :=
    { name := r.coin_id
      wallet_id := dlWalletId
      confirmed := false
      spend_bundle := some dlBundle
      additions := dlAdditions
      removals := dlBundle.removals
      fee_amount := fee }
  let txs : List TxRecord :=
    if 0 < fee then
      [dl_tx,
       { name := env.chiaTxName
         wallet_id := stdWalletId
         confirmed := false
         spend_bundle := none
         additions := []
         removals := env.chiaTxRemovals
         fee_amount := fee }]
    else [dl_tx]
  let pendingRecords : List SingletonRecord :=
    if announce_new_state then [new_record, second_record] else [new_record]
  ({ new_record := new_record
     eph_record := if announce_new_state then some second_record else none
     primaries := [primary]
     dl_coin_spends := dl_coin_spends
     asserted_puzzle_announcements := localPuzAnns.map (fun l => l.map Announcement.name)
     caller_puzzle_announcements_after := callerPuzAnnsAfter
     txs := txs },
   { s with dl_store := s.dl_store ++ (if add_pending_singleton then pendingRecords else []) })

/-- `create_update_state_spend` (source lines 413-636) as a pure function: on
error the state is returned unchanged (every raise in the source happens
before the pending records are inserted at the very end).  `sign` only
affects the aggregated signature and is omitted; the `coin_announcements`
arguments do not feed back into the modelled state.  The additions recorded
on the transaction follow the singleton layer's wrapping of the inner
CREATE_COIN (external CLVM). -/
def create_update_state_spend (env : Env) (s : WalletState) (launcher_id : B32)
    (root_hash : Option B32) (new_puz_hash : Option B32) (new_amount : Option Nat)
    (fee : Nat) (puzzle_announcements_to_consume : Option (List Announcement))
    (add_pending_singleton : Bool) (announce_new_state : Bool) :
    Except DLError UpdateStateResult × WalletState :=
  match get_spendable_singleton_info s launcher_id with
  | Except.error e => (Except.error e, s)
  | Except.ok (r, _parent_lineage) =>
    match env.derivation r.inner_puzzle_hash with
    | none => (Except.error DLError.notOwned, s)
    | some pk =>
      match r.lineage_proof.parent_name, r.lineage_proof.amount with
      | some pn, some amt =>
        let b := buildUpdateState env s launcher_id r pn amt pk root_hash new_puz_hash
          new_amount fee puzzle_announcements_to_consume add_pending_singleton announce_new_state
        (Except.ok b.1, b.2)
      | _, _ => (Except.error DLError.assertionFailed, s)

/-! ## Sync / removal handler -/

/-- Outcome of `singleton_removed`. -/
inductive SyncResult where
  | notDLSingleton
  | unknownParent
  | badHint
  | melted
  | inserted : SingletonRecord → SyncResult
  deriving DecidableEq, Repr

/-- The scan loop of `singleton_removed`: the first CREATE_COIN condition
whose amount is odd. -/
def findOddCreateCoin : List Condition → Option Condition
  | [] => none
  | c :: cs =>
    if c.opcode == 51 && c.amount % 2 == 1 then some c else findOddCreateCoin cs

/-- `singleton_removed` (source lines 743-807, the record extraction and
insertion; the fork detector it triggers afterwards is
`potentially_handle_resubmit`).  `matched` is the result of
`match_dl_singleton` on the puzzle reveal, `conditions` the condition list the
external CLVM evaluator produced from the puzzle and solution. -/
def singleton_removed (s : WalletState) (matched : Bool) (parent_coin : Coin)
    (conditions : List Condition) (height timestamp : Nat) :
    WalletState × SyncResult :=
  if !matched then (s, SyncResult.notDLSingleton)
  else
    let parent_name := parent_coin.name
    match get_singleton_record s.dl_store parent_name with
    | none => (s, SyncResult.unknownParent)
    | some parentRec =>
      match findOddCreateCoin conditions with
      | none => (s, SyncResult.melted)
      | some c =>
        match c.memos with
        | none => (s, SyncResult.badHint)
        | some ms =>
          match ms.get? 1, ms.get? 2 with
          | some root, some inner =>
            let newRec : SingletonRecord :=
              { coin_id := B32.coinName parent_name c.puzzle_hash c.amount
                launcher_id := parentRec.launcher_id
                root := root
                inner_puzzle_hash := inner
                confirmed := true
                confirmed_at_height := height
                lineage_proof :=
                  ⟨some parent_name, some (B32.hostLayerPuz inner root), some c.amount⟩
                generation := parentRec.generation + 1
                timestamp := timestamp }
            ({ s with dl_store := s.dl_store ++ [newRec] }, SyncResult.inserted newRec)
          | _, _ => (s, SyncResult.badHint)

/-! ## Fork detector and rebaser -/

/-- Concatenation of the images of `f`, used where the source iterates over
nested lists. -/
def concatMap (f : α → List β) : List α → List β
  | [] => []
  | a :: as => f a ++ concatMap f as

/-- Stable-enough insertion by generation, modelling `sorted(unconfirmed,
key=attrgetter("generation"))`. -/
def insertByGen (r : SingletonRecord) : List SingletonRecord → List SingletonRecord
  | [] => [r]
  | x :: xs => if r.generation < x.generation then r :: x :: xs else x :: insertByGen r xs

/-- Sort by generation, ascending. -/
def sortByGeneration : List SingletonRecord → List SingletonRecord
  | [] => []
  | x :: xs => insertByGen x (sortByGeneration xs)

/-- `set(a) == set(b)` on record lists. -/
def listSetEq (a b : List SingletonRecord) : Bool :=
  a.all (fun x => decide (x ∈ b)) && b.all (fun x => decide (x ∈ a))

/-- `tx.spend_bundle.fees()` with the source's `else 0` default. -/
def feeOfTx (tx : TxRecord) : Nat :=
  match tx.spend_bundle with
  | some sb => sb.fees
  | none => 0

/-- The re-authoring calls the rebase loop issues, in order: for each pending
singleton (sorted), for each relevant DL transaction whose additions contain
the singleton's coin, one `create_update_state_spend(launcher_id,
singleton.root, fee=fee)` call. -/
def rebaseCalls (pending : List SingletonRecord) (txs : List TxRecord) :
    List (B32 × Nat) :=
  concatMap (fun sg =>
    (txs.filter (fun tx => tx.additions.any (fun c => c.name == sg.coin_id))).map
      (fun tx => (sg.root, feeOfTx tx))) pending

/-- Executes the rebase authoring calls in order, stopping at the first
exception (`none`) while keeping all store changes made up to that point,
exactly as the Python `try` block does. -/
def runRebase (env : Env) (launcher_id : B32) :
    List (B32 × Nat) → WalletState → Option (List TxRecord) × WalletState
  | [], s => (some [], s)
  | (root, fee) :: rest, s =>
    match create_update_state_spend env s launcher_id (some root) none none fee none true false with
    | (Except.error _, s1) => (none, s1)
    | (Except.ok res, s1) =>
      match runRebase env launcher_id rest s1 with
      | (none, s2) => (none, s2)
      | (some ts, s2) => (some (res.txs ++ ts), s2)

/-- The `relevant_dl_txs` collection of `potentially_handle_resubmit`: for
each pending singleton in order, the transaction record stored under its
lineage parent name, when present. -/
def relevantDlTxs (s : WalletState) (pending : List SingletonRecord) : List TxRecord :=
  pending.filterMap (fun sg =>
    sg.lineage_proof.parent_name.bind (get_transaction_record s.tx_store))

/-- The `root_changed` determination of `potentially_handle_resubmit` (source
lines 847-851): true when the record for the first pending singleton's parent
is missing, or some confirmed record in the branch has a different root. -/
def rootChangedB (s : WalletState) (parent_name : B32)
    (full_branch : List SingletonRecord) : Bool :=
  match get_singleton_record s.dl_store parent_name with
  | none => true
  | some p => full_branch.any (fun r => r.confirmed && !(r.root == p.root))

/-- The transactions `potentially_handle_resubmit` deletes: the relevant DL
transactions followed by the unconfirmed standard-wallet transactions whose
removals intersect the DL bundles' removal ids (source lines 853-875). -/
def resubmitTxDeletions (s : WalletState) (pending : List SingletonRecord) :
    List TxRecord :=
  let relevant_dl_txs : List TxRecord := relevantDlTxs s pending
  let all_removal_ids : List B32 :=
    concatMap (fun tx =>
      match tx.spend_bundle with
      | some sb => sb.removals.map Coin.name
      | none => []) relevant_dl_txs
  let relevant_std_txs : List TxRecord :=
    (s.tx_store.filter (fun tx => tx.wallet_id == stdWalletId && !tx.confirmed)).filter
      (fun tx => tx.removals.any (fun c => all_removal_ids.contains c.name))
  relevant_dl_txs ++ relevant_std_txs

/-- State after step 8 and 9 of the fork detector: the relevant transactions
and every pending singleton record are deleted. -/
def resubmitDeleteState (s : WalletState) (pending : List SingletonRecord) :
    WalletState :=
  { dl_store := pending.foldl (fun st sg => delete_singleton_record st sg.coin_id) s.dl_store
    tx_store := (resubmitTxDeletions s pending).foldl
      (fun ts tx => ts.filter (fun t => !(t.name == tx.name))) s.tx_store
    launchers := s.launchers }

/-- The body of `potentially_handle_resubmit` once a fork has been detected
and `parent_name` extracted (source lines 844-906): compute `root_changed`,
delete the relevant transactions and every pending record, and when the root
did not change attempt the rebase, cleaning up behind an exception.  The
exception cleanup iterates over the old `unconfirmed_singletons` list,
deleting their coin ids from the store as it stands after the attempt. -/
def resubmitCore (env : Env) (s : WalletState) (launcher_id : B32)
    (pending : List SingletonRecord) (parent_name : B32)
    (full_branch : List SingletonRecord) : WalletState :=
  let s2 : WalletState := resubmitDeleteState s pending
  if rootChangedB s parent_name full_branch then s2
  else
    match runRebase env launcher_id (rebaseCalls pending (relevantDlTxs s pending)) s2 with
    | (some all_txs, s3) => { s3 with tx_store := s3.tx_store ++ all_txs }
    | (none, s3) =>
      let cleaned : List SingletonRecord :=
        pending.foldl (fun st sg => delete_singleton_record st sg.coin_id) s3.dl_store
      { s3 with dl_store := cleaned }

/-- `potentially_handle_resubmit` (source lines 825-906).  A failing
`assert parent_name is not None` propagates before any mutation, so that path
returns the state unchanged. -/
def potentially_handle_resubmit (env : Env) (s : WalletState) (launcher_id : B32) :
    WalletState :=
  let unconfirmed := get_unconfirmed_singletons s.dl_store launcher_id
  if unconfirmed.isEmpty then s
  else
    match sortByGeneration unconfirmed with
    | [] => s
    | p0 :: ps =>
      let pending := p0 :: ps
      let full_branch := get_all_singletons_for_launcher s.dl_store launcher_id p0.generation
      if pending.length == full_branch.length && listSetEq pending full_branch then s
      else
        match p0.lineage_proof.parent_name with
        | none => s
        | some parent_name => resubmitCore env s launcher_id pending parent_name full_branch

/-! ## Basic lemmas about the store operations -/

theorem laterGeneration_cases (acc : Option SingletonRecord) (a x : SingletonRecord)
    (h : laterGeneration acc a = some x) : x = a ∨ acc = some x := by
  rcases acc with _ | b
  · simp only [laterGeneration] at h
    exact Or.inl (Option.some.inj h).symm
  · simp only [laterGeneration] at h
    by_cases hb : b.generation < a.generation
    · rw [if_pos hb] at h
      exact Or.inl (Option.some.inj h).symm
    · rw [if_neg hb] at h
      exact Or.inr h

theorem laterGeneration_ge (acc : Option SingletonRecord) (a x : SingletonRecord)
    (h : laterGeneration acc a = some x) :
    a.generation ≤ x.generation ∧ ∀ b, acc = some b → b.generation ≤ x.generation := by
  rcases acc with _ | b
  · simp only [laterGeneration] at h
    cases Option.some.inj h
    exact ⟨Nat.le_refl _, fun b hb => by cases hb⟩
  · simp only [laterGeneration] at h
    by_cases hb : b.generation < a.generation
    · rw [if_pos hb] at h
      cases Option.some.inj h
      exact ⟨Nat.le_refl _, fun c hc => Nat.le_of_lt (by cases Option.some.inj hc; exact hb)⟩
    · rw [if_neg hb] at h
      cases Option.some.inj h
      exact ⟨Nat.le_of_not_lt hb, fun c hc => by cases Option.some.inj hc; exact Nat.le_refl _⟩

theorem foldl_later_mem :
    ∀ (l : List SingletonRecord) (acc : Option SingletonRecord) (x : SingletonRecord),
      l.foldl laterGeneration acc = some x → acc = some x ∨ x ∈ l := by
  intro l
  induction l with
  | nil => exact fun acc x h => Or.inl h
  | cons a as ih =>
    intro acc x h
    rcases ih (laterGeneration acc a) x h with h1 | h1
    · rcases laterGeneration_cases acc a x h1 with h2 | h2
      · exact Or.inr (h2 ▸ List.mem_cons_self a as)
      · exact Or.inl h2
    · exact Or.inr (List.mem_cons_of_mem a h1)

theorem laterGeneration_isSome (acc : Option SingletonRecord) (a : SingletonRecord) :
    ∃ z, laterGeneration acc a = some z := by
  rcases acc with _ | b
  · exact ⟨a, rfl⟩
  · simp only [laterGeneration]
    by_cases hb : b.generation < a.generation
    · exact ⟨a, if_pos hb⟩
    · exact ⟨b, if_neg hb⟩

theorem foldl_later_ge :
    ∀ (l : List SingletonRecord) (acc : Option SingletonRecord) (x : SingletonRecord),
      l.foldl laterGeneration acc = some x →
      (∀ y ∈ l, y.generation ≤ x.generation) ∧
      (∀ b, acc = some b → b.generation ≤ x.generation) := by
  intro l
  induction l with
  | nil =>
    intro acc x h
    refine ⟨fun y hy => absurd hy (List.not_mem_nil y), fun b hb => ?_⟩
    rw [hb] at h
    cases Option.some.inj h
    exact Nat.le_refl _
  | cons a as ih =>
    intro acc x h
    have hrec := ih (laterGeneration acc a) x h
    obtain ⟨z, hz⟩ := laterGeneration_isSome acc a
    have hzx : z.generation ≤ x.generation := hrec.2 z hz
    have hga := laterGeneration_ge acc a z hz
    refine ⟨fun y hy => ?_, fun b hb => ?_⟩
    · rcases List.mem_cons.mp hy with h2 | h2
      · subst h2
        exact Nat.le_trans hga.1 hzx
      · exact hrec.1 y h2
    · exact Nat.le_trans (hga.2 b hb) hzx

theorem get_latest_mem {store : List SingletonRecord} {L : B32} {r : SingletonRecord}
    (h : get_latest_singleton store L = some r) :
    r ∈ store ∧ r.launcher_id = L := by
  unfold get_latest_singleton at h
  rcases foldl_later_mem _ none r h with h1 | h1
  · cases h1
  · have h2 := List.mem_filter.mp h1
    exact ⟨h2.1, by have := h2.2; simpa using this⟩

theorem get_latest_ge {store : List SingletonRecord} {L : B32} {r : SingletonRecord}
    (h : get_latest_singleton store L = some r) :
    ∀ x ∈ store, x.launcher_id = L → x.generation ≤ r.generation := by
  intro x hx hxL
  unfold get_latest_singleton at h
  refine (foldl_later_ge _ none r h).1 x ?_
  exact List.mem_filter.mpr ⟨hx, by simpa using hxL⟩

theorem get_latest_append_gt {store : List SingletonRecord} {L : B32} {p : SingletonRecord}
    (hL : p.launcher_id = L)
    (hgt : ∀ x ∈ store, x.launcher_id = L → x.generation < p.generation) :
    get_latest_singleton (store ++ [p]) L = some p := by
  unfold get_latest_singleton
  rw [List.filter_append, List.foldl_append]
  have hp : List.filter (fun r => r.launcher_id == L) [p] = [p] := by
    simp [List.filter, hL]
  rw [hp]
  rcases hacc : (store.filter (fun r => r.launcher_id == L)).foldl laterGeneration none with _ | b
  · rw [hacc]
    rfl
  · rw [hacc]
    have hb := foldl_later_mem _ none b hacc
    rcases hb with hb | hb
    · cases hb
    · have hbf := List.mem_filter.mp hb
      have hbL : b.launcher_id = L := by simpa using hbf.2
      have hlt : b.generation < p.generation := hgt b hbf.1 hbL
      simp [List.foldl, laterGeneration, hlt]

theorem foldl_delete_eq_filter :
    ∀ (pending : List SingletonRecord) (st : List SingletonRecord),
      pending.foldl (fun st sg => delete_singleton_record st sg.coin_id) st
        = st.filter (fun x => !(pending.any (fun sg => x.coin_id == sg.coin_id))) := by
  intro pending
  induction pending with
  | nil =>
    intro st
    simp [List.foldl]
  | cons a as ih =>
    intro st
    rw [List.foldl_cons]
    show as.foldl (fun st sg => delete_singleton_record st sg.coin_id)
        (delete_singleton_record st a.coin_id) = _
    rw [ih, delete_singleton_record, List.filter_filter]
    congr 1
    funext x
    simp [Bool.not_or, Bool.and_comm]

theorem foldl_tx_delete_eq_filter :
    ∀ (txs : List TxRecord) (st : List TxRecord),
      txs.foldl (fun ts tx => ts.filter (fun t => !(t.name == tx.name))) st
        = st.filter (fun t => !(txs.any (fun tx => t.name == tx.name))) := by
  intro txs
  induction txs with
  | nil =>
    intro st
    simp [List.foldl]
  | cons a as ih =>
    intro st
    rw [List.foldl_cons, ih, List.filter_filter]
    congr 1
    funext x
    simp [Bool.not_or, Bool.and_comm]

theorem insertByGen_perm (r : SingletonRecord) :
    ∀ l, (insertByGen r l).Perm (r :: l) := by
  intro l
  induction l with
  | nil => exact List.Perm.refl _
  | cons x xs ih =>
    unfold insertByGen
    by_cases h : r.generation < x.generation
    · rw [if_pos h]
    · rw [if_neg h]
      exact List.Perm.trans (List.Perm.cons x ih) (List.Perm.swap r x xs)

theorem sortByGeneration_perm : ∀ l, (sortByGeneration l).Perm l := by
  intro l
  induction l with
  | nil => exact List.Perm.refl _
  | cons x xs ih =>
    exact List.Perm.trans (insertByGen_perm x (sortByGeneration xs)) (List.Perm.cons x ih)

theorem mem_sortByGeneration {x : SingletonRecord} {l : List SingletonRecord} :
    x ∈ sortByGeneration l ↔ x ∈ l :=
  (sortByGeneration_perm l).mem_iff

theorem sortByGeneration_eq_nil {l : List SingletonRecord}
    (h : sortByGeneration l = []) : l = [] := by
  have hl := (sortByGeneration_perm l).length_eq
  rw [h] at hl
  exact List.eq_nil_of_length_eq_zero hl.symm

theorem findOddCreateCoin_eq (conds : List Condition) :
    findOddCreateCoin conds
      = conds.find? (fun c => c.opcode == 51 && c.amount % 2 == 1) := by
  induction conds with
  | nil => rfl
  | cons c cs ih =>
    simp only [findOddCreateCoin, List.find?_cons]
    by_cases h : (c.opcode == 51 && c.amount % 2 == 1) = true
    · simp [h]
    · simp [h, ih]

/-! ## Inversion lemmas for the authoring path -/

theorem spendable_ok_latest {s : WalletState} {L : B32} {r : SingletonRecord}
    {pl : LineageProof}
    (h : get_spendable_singleton_info s L = Except.ok (r, pl)) :
    get_latest_singleton s.dl_store L = some r ∧ r.confirmed = true := by
  unfold get_spendable_singleton_info at h
  split at h
  · cases h
  · rename_i r' heq
    split at h
    · cases h
    · rename_i hconf
      split at h
      · split at h
        · rename_i parent hparent
          refine ⟨by rw [heq, (Prod.mk.injEq _ _ _ _).mp (Except.ok.inj h) |>.1], ?_⟩
          rw [← (Prod.mk.injEq _ _ _ _).mp (Except.ok.inj h) |>.1]
          simpa using hconf
        · split at h
          · cases h
          · split at h
            · cases h
            · rename_i c hc
              refine ⟨by rw [heq, (Prod.mk.injEq _ _ _ _).mp (Except.ok.inj h) |>.1], ?_⟩
              rw [← (Prod.mk.injEq _ _ _ _).mp (Except.ok.inj h) |>.1]
              simpa using hconf
      · cases h

theorem create_error_eq {env : Env} {s : WalletState} {L : B32} {e : DLError}
    (rh : Option B32) (nph : Option B32) (na : Option Nat) (fee : Nat)
    (pa : Option (List Announcement)) (ap ann : Bool)
    (h : get_spendable_singleton_info s L = Except.error e) :
    create_update_state_spend env s L rh nph na fee pa ap ann = (Except.error e, s) := by
  unfold create_update_state_spend
  rw [h]

theorem spendable_pending {s : WalletState} {L : B32} {r : SingletonRecord}
    (h1 : get_latest_singleton s.dl_store L = some r) (h2 : r.confirmed = false) :
    get_spendable_singleton_info s L = Except.error DLError.isPending := by
  unfold get_spendable_singleton_info
  rw [h1]
  simp [h2]

theorem create_pending {env : Env} {s : WalletState} {L : B32} {r : SingletonRecord}
    (rh : Option B32) (nph : Option B32) (na : Option Nat) (fee : Nat)
    (pa : Option (List Announcement)) (ap ann : Bool)
    (h1 : get_latest_singleton s.dl_store L = some r) (h2 : r.confirmed = false) :
    create_update_state_spend env s L rh nph na fee pa ap ann
      = (Except.error DLError.isPending, s) :=
  create_error_eq rh nph na fee pa ap ann (spendable_pending h1 h2)

theorem create_ok_inv {env : Env} {s : WalletState} {L : B32}
    {rh nph : Option B32} {na : Option Nat} {fee : Nat}
    {pa : Option (List Announcement)} {ap ann : Bool}
    {res : UpdateStateResult} {s' : WalletState}
    (h : create_update_state_spend env s L rh nph na fee pa ap ann = (Except.ok res, s')) :
    ∃ r pl pk pn amt,
      get_spendable_singleton_info s L = Except.ok (r, pl) ∧
      env.derivation r.inner_puzzle_hash = some pk ∧
      r.lineage_proof.parent_name = some pn ∧
      r.lineage_proof.amount = some amt ∧
      buildUpdateState env s L r pn amt pk rh nph na fee pa ap ann = (res, s') := by
  unfold create_update_state_spend at h
  split at h
  · cases (Prod.mk.injEq _ _ _ _).mp h |>.1
  · rename_i r pl hsp
    split at h
    · cases (Prod.mk.injEq _ _ _ _).mp h |>.1
    · rename_i pk hpk
      split at h
      · rename_i pn amt hpn hamt
        obtain ⟨h1, h2⟩ := (Prod.mk.injEq _ _ _ _).mp h
        exact ⟨r, pl, pk, pn, amt, hsp, hpk, hpn, hamt, by
          rw [Prod.ext_iff]
          exact ⟨Except.ok.inj h1, h2⟩⟩
      · cases (Prod.mk.injEq _ _ _ _).mp h |>.1

theorem create_error_state {env : Env} {s : WalletState} {L : B32}
    {rh nph : Option B32} {na : Option Nat} {fee : Nat}
    {pa : Option (List Announcement)} {ap ann : Bool}
    {e : DLError} {s' : WalletState}
    (h : create_update_state_spend env s L rh nph na fee pa ap ann = (Except.error e, s')) :
    s' = s := by
  unfold create_update_state_spend at h
  split at h
  · exact ((Prod.mk.injEq _ _ _ _).mp h).2.symm
  · split at h
    · exact ((Prod.mk.injEq _ _ _ _).mp h).2.symm
    · split at h
      · cases ((Prod.mk.injEq _ _ _ _).mp h).1
      · exact ((Prod.mk.injEq _ _ _ _).mp h).2.symm

theorem buildUpdateState_tx_store (env : Env) (s : WalletState) (L : B32)
    (r : SingletonRecord) (pn : B32) (amt pk : Nat) (rh nph : Option B32)
    (na : Option Nat) (fee : Nat) (pa : Option (List Announcement)) (ap ann : Bool) :
    (buildUpdateState env s L r pn amt pk rh nph na fee pa ap ann).2.tx_store
      = s.tx_store := rfl

theorem buildUpdateState_launchers (env : Env) (s : WalletState) (L : B32)
    (r : SingletonRecord) (pn : B32) (amt pk : Nat) (rh nph : Option B32)
    (na : Option Nat) (fee : Nat) (pa : Option (List Announcement)) (ap ann : Bool) :
    (buildUpdateState env s L r pn amt pk rh nph na fee pa ap ann).2.launchers
      = s.launchers := rfl

theorem buildUpdateState_dl_rebase (env : Env) (s : WalletState) (L : B32)
    (r : SingletonRecord) (pn : B32) (amt pk : Nat) (rh nph : Option B32)
    (na : Option Nat) (fee : Nat) (pa : Option (List Announcement)) :
    (buildUpdateState env s L r pn amt pk rh nph na fee pa true false).2.dl_store
      = s.dl_store
        ++ [(buildUpdateState env s L r pn amt pk rh nph na fee pa true false).1.new_record] :=
  rfl

theorem buildUpdateState_record_no_announce (env : Env) (s : WalletState) (L : B32)
    (r : SingletonRecord) (pn : B32) (amt pk : Nat) (rh nph : Option B32)
    (na : Option Nat) (fee : Nat) (pa : Option (List Announcement)) (ap : Bool) :
    (buildUpdateState env s L r pn amt pk rh nph na fee pa ap false).1.new_record.generation
        = r.generation + 1
      ∧ (buildUpdateState env s L r pn amt pk rh nph na fee pa ap false).1.new_record.launcher_id
        = L
      ∧ (buildUpdateState env s L r pn amt pk rh nph na fee pa ap false).1.new_record.confirmed
        = false :=
  ⟨rfl, rfl, rfl⟩

/-- Inversion of a successful re-authoring call as issued by the rebase loop:
the only store change is appending the single new pending record, whose
generation strictly exceeds the generations of all records of the launcher. -/
theorem create_rebase_ok_inv {env : Env} {s : WalletState} {L : B32}
    {root : B32} {fee : Nat} {res : UpdateStateResult} {s' : WalletState}
    (h : create_update_state_spend env s L (some root) none none fee none true false
      = (Except.ok res, s')) :
    s' = { s with dl_store := s.dl_store ++ [res.new_record] } ∧
    res.new_record.launcher_id = L ∧
    res.new_record.confirmed = false ∧
    ∀ x ∈ s.dl_store, x.launcher_id = L → x.generation < res.new_record.generation := by
  obtain ⟨r, pl, pk, pn, amt, hsp, hpk, hpn, hamt, hb⟩ := create_ok_inv h
  obtain ⟨hl, _hc⟩ := spendable_ok_latest hsp
  have hres : res = (buildUpdateState env s L r pn amt pk (some root) none none
      fee none true false).1 := by rw [hb]
  have hst : s' = (buildUpdateState env s L r pn amt pk (some root) none none
      fee none true false).2 := by rw [hb]
  obtain ⟨hgen, hlau, hconf⟩ := buildUpdateState_record_no_announce env s L r pn amt pk
    (some root) none none fee none true
  refine ⟨?_, by rw [hres]; exact hlau, by rw [hres]; exact hconf, ?_⟩
  · rw [hst, hres]
    rfl
  · intro x hx hxL
    have hle := get_latest_ge hl x hx hxL
    rw [hres, hgen]
    exact Nat.lt_succ_of_le hle

/-- When the latest record of the launcher is unconfirmed, every re-authoring
call fails immediately with Pending, so the rebase loop stops without further
state change. -/
theorem runRebase_cons (env : Env) (L root : B32) (fee : Nat)
    (rest : List (B32 × Nat)) (s : WalletState) :
    runRebase env L ((root, fee) :: rest) s
      = (match create_update_state_spend env s L (some root) none none fee none true false with
         | (Except.error _, s1) => (none, s1)
         | (Except.ok res, s1) =>
           match runRebase env L rest s1 with
           | (none, s2) => (none, s2)
           | (some ts, s2) => (some (res.txs ++ ts), s2)) := rfl

/-- When the latest record of the launcher is unconfirmed, every re-authoring
call fails immediately with Pending, so the rebase loop stops without further
state change. -/
theorem runRebase_stuck {env : Env} {L : B32} {s : WalletState} {p : SingletonRecord}
    (hl : get_latest_singleton s.dl_store L = some p) (hc : p.confirmed = false) :
    ∀ calls : List (B32 × Nat),
      runRebase env L calls s
        = (match calls with
           | [] => (some [], s)
           | _ :: _ => (none, s)) := by
  intro calls
  match calls with
  | [] => rfl
  | (root, fee) :: rest =>
    rw [runRebase_cons,
      create_pending (some root) none none fee none true false hl hc]

/-- Shape of the state after the whole rebase loop: the singleton store either
is unchanged or has exactly one new unconfirmed record of the launcher
appended whose generation exceeds every previous generation of the launcher;
the transaction store and launcher rows are untouched. -/
theorem runRebase_shape (env : Env) (L : B32) (calls : List (B32 × Nat))
    (s2 : WalletState) :
    (runRebase env L calls s2).2.tx_store = s2.tx_store ∧
    (runRebase env L calls s2).2.launchers = s2.launchers ∧
    ((runRebase env L calls s2).2.dl_store = s2.dl_store ∨
      ∃ p, (runRebase env L calls s2).2.dl_store = s2.dl_store ++ [p] ∧
        p.launcher_id = L ∧ p.confirmed = false ∧
        ∀ x ∈ s2.dl_store, x.launcher_id = L → x.generation < p.generation) := by
  match calls with
  | [] => exact ⟨rfl, rfl, Or.inl rfl⟩
  | (root, fee) :: rest =>
    rw [runRebase_cons]
    rcases hcr : create_update_state_spend env s2 L (some root) none none fee none true false
      with ⟨e | res, s1⟩
    · have hs1 : s1 = s2 := create_error_state hcr
      subst hs1
      exact ⟨rfl, rfl, Or.inl rfl⟩
    · obtain ⟨hs1, hlau, hconf, hgt⟩ := create_rebase_ok_inv hcr
      have hlatest : get_latest_singleton s1.dl_store L = some res.new_record := by
        rw [hs1]
        exact get_latest_append_gt hlau hgt
      have hdl : s1.dl_store = s2.dl_store ++ [res.new_record] := by rw [hs1]
      have htx : s1.tx_store = s2.tx_store := by rw [hs1]
      have hla : s1.launchers = s2.launchers := by rw [hs1]
      cases rest with
      | nil =>
        have hrr0 : runRebase env L ([] : List (B32 × Nat)) s1 = (some [], s1) := rfl
        dsimp only
        rw [hrr0]
        exact ⟨htx, hla, Or.inr ⟨res.new_record, hdl, hlau, hconf, hgt⟩⟩
      | cons c rest2 =>
        have hrr1 : runRebase env L (c :: rest2) s1 = (none, s1) := by
          have h2 := @runRebase_stuck env L s1 res.new_record hlatest hconf (c :: rest2)
          simpa using h2
        dsimp only
        rw [hrr1]
        exact ⟨htx, hla, Or.inr ⟨res.new_record, hdl, hlau, hconf, hgt⟩⟩

/-! ## No-change lemmas for the fork detector -/

theorem resubmit_of_unconfirmed_nil {env : Env} {s : WalletState} {L : B32}
    (h : get_unconfirmed_singletons s.dl_store L = []) :
    potentially_handle_resubmit env s L = s := by
  unfold potentially_handle_resubmit
  rw [h]
  rfl

theorem unconfirmed_nil_of_all {store : List SingletonRecord} {L : B32}
    (h : ∀ x ∈ store, x.launcher_id = L → x.confirmed = true) :
    get_unconfirmed_singletons store L = [] := by
  unfold get_unconfirmed_singletons
  rw [List.filter_eq_nil_iff]
  intro a ha
  by_cases hL : a.launcher_id = L
  · simp [hL, h a ha hL]
  · simp [hL]

theorem resubmit_append_max {env : Env} {s : WalletState} {L : B32}
    {base : List SingletonRecord} {p : SingletonRecord}
    (hdl : s.dl_store = base ++ [p])
    (hbase : ∀ x ∈ base, x.launcher_id = L → x.confirmed = true ∧ x.generation < p.generation)
    (hpL : p.launcher_id = L) (hpc : p.confirmed = false) :
    potentially_handle_resubmit env s L = s := by
  have hunconf : get_unconfirmed_singletons s.dl_store L = [p] := by
    unfold get_unconfirmed_singletons
    rw [hdl, List.filter_append]
    have h1 : base.filter (fun r => r.launcher_id == L && !r.confirmed) = [] := by
      rw [List.filter_eq_nil_iff]
      intro a ha
      by_cases hL : a.launcher_id = L
      · simp [hL, (hbase a ha hL).1]
      · simp [hL]
    rw [h1]
    simp [List.filter, hpL, hpc]
  have hbranch : get_all_singletons_for_launcher s.dl_store L p.generation = [p] := by
    unfold get_all_singletons_for_launcher
    rw [hdl, List.filter_append]
    have h1 : base.filter
        (fun r => r.launcher_id == L && decide (p.generation ≤ r.generation)) = [] := by
      rw [List.filter_eq_nil_iff]
      intro a ha
      by_cases hL : a.launcher_id = L
      · simp [hL, Nat.not_le.mpr (hbase a ha hL).2]
      · simp [hL]
    rw [h1]
    simp [List.filter, hpL]
  have hchk : (([p] : List SingletonRecord).length == ([p] : List SingletonRecord).length
      && listSetEq [p] [p]) = true := by
    simp [listSetEq]
  simp only [potentially_handle_resubmit, hunconf, hbranch]
  simp [sortByGeneration, insertByGen, hbranch, hchk, listSetEq]

theorem resubmit_of_check_true {env : Env} {s : WalletState} {L : B32}
    {p0 : SingletonRecord} {ps : List SingletonRecord}
    (hsort : sortByGeneration (get_unconfirmed_singletons s.dl_store L) = p0 :: ps)
    (hchk : ((p0 :: ps).length
        == (get_all_singletons_for_launcher s.dl_store L p0.generation).length
      && listSetEq (p0 :: ps)
        (get_all_singletons_for_launcher s.dl_store L p0.generation)) = true) :
    potentially_handle_resubmit env s L = s := by
  have hemp : (get_unconfirmed_singletons s.dl_store L).isEmpty = false := by
    cases hu : get_unconfirmed_singletons s.dl_store L with
    | nil =>
      rw [hu] at hsort
      simp [sortByGeneration] at hsort
    | cons a as => rfl
  simp only [potentially_handle_resubmit, hemp, Bool.false_eq_true, if_false, hsort, hchk,
    if_true]

theorem resubmit_of_parent_none {env : Env} {s : WalletState} {L : B32}
    {p0 : SingletonRecord} {ps : List SingletonRecord}
    (hsort : sortByGeneration (get_unconfirmed_singletons s.dl_store L) = p0 :: ps)
    (hpn : p0.lineage_proof.parent_name = none) :
    potentially_handle_resubmit env s L = s := by
  have hemp : (get_unconfirmed_singletons s.dl_store L).isEmpty = false := by
    cases hu : get_unconfirmed_singletons s.dl_store L with
    | nil =>
      rw [hu] at hsort
      simp [sortByGeneration] at hsort
    | cons a as => rfl
  simp only [potentially_handle_resubmit, hemp, Bool.false_eq_true, if_false, hsort, hpn]
  split
  · rfl
  · rfl

theorem resubmit_main_eq {env : Env} {s : WalletState} {L : B32}
    {p0 : SingletonRecord} {ps : List SingletonRecord} {parent_name : B32}
    (hsort : sortByGeneration (get_unconfirmed_singletons s.dl_store L) = p0 :: ps)
    (hchk : ((p0 :: ps).length
        == (get_all_singletons_for_launcher s.dl_store L p0.generation).length
      && listSetEq (p0 :: ps)
        (get_all_singletons_for_launcher s.dl_store L p0.generation)) = false)
    (hpn : p0.lineage_proof.parent_name = some parent_name) :
    potentially_handle_resubmit env s L
      = resubmitCore env s L (p0 :: ps) parent_name
          (get_all_singletons_for_launcher s.dl_store L p0.generation) := by
  have hemp : (get_unconfirmed_singletons s.dl_store L).isEmpty = false := by
    cases hu : get_unconfirmed_singletons s.dl_store L with
    | nil =>
      rw [hu] at hsort
      simp [sortByGeneration] at hsort
    | cons a as => rfl
  simp only [potentially_handle_resubmit, hemp, Bool.false_eq_true, if_false, hsort, hchk,
    hpn]

/-- After the fork handling, all records of the launcher that survive in the
store are confirmed, except possibly the one record appended by a successful
re-authoring; in either case a subsequent detector run changes nothing. -/
theorem resubmitCore_post (env : Env) (s : WalletState) (L : B32)
    (pending : List SingletonRecord) (parent_name : B32)
    (branch : List SingletonRecord)
    (hcover : ∀ x ∈ s.dl_store, x.launcher_id = L → x.confirmed = false → x ∈ pending) :
    potentially_handle_resubmit env (resubmitCore env s L pending parent_name branch) L
      = resubmitCore env s L pending parent_name branch := by
  have hdel_dl : (resubmitDeleteState s pending).dl_store
      = s.dl_store.filter (fun x => !(pending.any (fun sg => x.coin_id == sg.coin_id))) :=
    foldl_delete_eq_filter pending s.dl_store
  have hP : ∀ x ∈ (resubmitDeleteState s pending).dl_store,
      x.launcher_id = L → x.confirmed = true := by
    intro x hx hxL
    rw [hdel_dl] at hx
    obtain ⟨hmem, hpred⟩ := List.mem_filter.mp hx
    by_contra hcf
    have hcf2 : x.confirmed = false := by
      cases hxc : x.confirmed
      · rfl
      · exact absurd hxc hcf
    have hinp : x ∈ pending := hcover x hmem hxL hcf2
    have hany : pending.any (fun sg => x.coin_id == sg.coin_id) = true :=
      List.any_eq_true.mpr ⟨x, hinp, by simp⟩
    rw [hany] at hpred
    cases hpred
  unfold resubmitCore
  cases hrc : rootChangedB s parent_name branch
  · -- root unchanged: the rebase attempt ran
    simp only [Bool.false_eq_true, if_false]
    obtain ⟨htx, hla, hshape⟩ :=
      runRebase_shape env L (rebaseCalls pending (relevantDlTxs s pending))
        (resubmitDeleteState s pending)
    rcases hrun : runRebase env L (rebaseCalls pending (relevantDlTxs s pending))
        (resubmitDeleteState s pending) with ⟨o, s3⟩
    rw [hrun] at htx hla hshape
    cases o with
    | some all_txs =>
      dsimp only
      rcases hshape with hsh | ⟨p, hsh, hpL, hpc, hgt⟩
      · refine resubmit_of_unconfirmed_nil (unconfirmed_nil_of_all ?_)
        intro x hx hxL
        dsimp only at hx
        rw [hsh] at hx
        exact hP x hx hxL
      · refine @resubmit_append_max env
          ⟨s3.dl_store, s3.tx_store ++ all_txs, s3.launchers⟩ L
          (resubmitDeleteState s pending).dl_store p ?_ ?_ hpL hpc
        · dsimp only
          exact hsh
        · intro x hx hxL
          exact ⟨hP x hx hxL, hgt x hx hxL⟩
    | none =>
      dsimp only
      have hclean : (pending.foldl (fun st sg => delete_singleton_record st sg.coin_id)
          s3.dl_store)
          = s3.dl_store.filter (fun x => !(pending.any (fun sg => x.coin_id == sg.coin_id))) :=
        foldl_delete_eq_filter pending s3.dl_store
      rcases hshape with hsh | ⟨p, hsh, hpL, hpc, hgt⟩
      · refine resubmit_of_unconfirmed_nil (unconfirmed_nil_of_all ?_)
        intro x hx hxL
        dsimp only at hx
        rw [hclean, hsh] at hx
        exact hP x (List.mem_filter.mp hx).1 hxL
      · rw [hsh] at hclean
        rw [List.filter_append] at hclean
        cases hdp : (!(pending.any (fun sg => p.coin_id == sg.coin_id)))
        · -- the appended record was itself swept up by the cleanup
          have hfp : ([p] : List SingletonRecord).filter
              (fun x => !(pending.any (fun sg => x.coin_id == sg.coin_id))) = [] := by
            simp [List.filter, hdp]
          rw [hfp, List.append_nil] at hclean
          refine resubmit_of_unconfirmed_nil (unconfirmed_nil_of_all ?_)
          intro x hx hxL
          dsimp only at hx
          rw [hsh, hclean] at hx
          exact hP x (List.mem_filter.mp hx).1 hxL
        · have hfp : ([p] : List SingletonRecord).filter
              (fun x => !(pending.any (fun sg => x.coin_id == sg.coin_id))) = [p] := by
            simp [List.filter, hdp]
          rw [hfp] at hclean
          refine @resubmit_append_max env
            ⟨List.foldl (fun st sg => delete_singleton_record st sg.coin_id)
                s3.dl_store pending, s3.tx_store, s3.launchers⟩ L
            ((resubmitDeleteState s pending).dl_store.filter
              (fun x => !(pending.any (fun sg => x.coin_id == sg.coin_id)))) p
            ?_ ?_ hpL hpc
          · dsimp only
            rw [hsh]
            exact hclean
          · intro x hx hxL
            have hx2 := (List.mem_filter.mp hx).1
            exact ⟨hP x hx2 hxL, hgt x hx2 hxL⟩
  · -- root changed: only the deletions happened
    simp only [if_true]
    exact resubmit_of_unconfirmed_nil (unconfirmed_nil_of_all hP)

/-- When the pending set and the branch are set-equal, they are in fact the
same filter of the store, so the length test of the source also passes. -/
theorem unconf_eq_branch_of_setEq {store : List SingletonRecord} {L : B32}
    {p0 : SingletonRecord} {ps : List SingletonRecord}
    (hsort : sortByGeneration (get_unconfirmed_singletons store L) = p0 :: ps)
    (hset : listSetEq (p0 :: ps) (get_all_singletons_for_launcher store L p0.generation)
      = true) :
    get_unconfirmed_singletons store L
      = get_all_singletons_for_launcher store L p0.generation := by
  obtain ⟨hall1, hall2⟩ := Bool.and_eq_true_iff.mp hset
  have h1 : ∀ x ∈ (p0 :: ps),
      x ∈ get_all_singletons_for_launcher store L p0.generation := by
    intro x hx
    have := List.all_eq_true.mp hall1 x hx
    exact of_decide_eq_true this
  have h2 : ∀ x ∈ get_all_singletons_for_launcher store L p0.generation,
      x ∈ (p0 :: ps) := by
    intro x hx
    have := List.all_eq_true.mp hall2 x hx
    exact of_decide_eq_true this
  unfold get_unconfirmed_singletons get_all_singletons_for_launcher
  apply List.filter_congr
  intro x hx
  by_cases hu : (x.launcher_id == L && !x.confirmed) = true
  · have hmem : x ∈ get_unconfirmed_singletons store L :=
      List.mem_filter.mpr ⟨hx, hu⟩
    have hmem2 := mem_sortByGeneration.mpr hmem
    rw [hsort] at hmem2
    have hbr := h1 x hmem2
    have := (List.mem_filter.mp hbr).2
    rw [hu, this]
  · by_cases hb : (x.launcher_id == L && decide (p0.generation ≤ x.generation)) = true
    · have hbr : x ∈ get_all_singletons_for_launcher store L p0.generation :=
        List.mem_filter.mpr ⟨hx, hb⟩
      have hmem2 := h2 x hbr
      rw [← hsort] at hmem2
      have hmem := mem_sortByGeneration.mp hmem2
      have := (List.mem_filter.mp hmem).2
      exact absurd this hu
    · rw [Bool.eq_false_iff.mpr hu, Bool.eq_false_iff.mpr hb]

theorem resubmit_of_setEq {env : Env} {s : WalletState} {L : B32}
    {p0 : SingletonRecord} {ps : List SingletonRecord}
    (hsort : sortByGeneration (get_unconfirmed_singletons s.dl_store L) = p0 :: ps)
    (hset : listSetEq (p0 :: ps)
      (get_all_singletons_for_launcher s.dl_store L p0.generation) = true) :
    potentially_handle_resubmit env s L = s := by
  have hlist := unconf_eq_branch_of_setEq hsort hset
  have hlen : (p0 :: ps).length
      = (get_all_singletons_for_launcher s.dl_store L p0.generation).length := by
    have hpl := (sortByGeneration_perm (get_unconfirmed_singletons s.dl_store L)).length_eq
    rw [hsort] at hpl
    rw [hpl, hlist]
  refine resubmit_of_check_true hsort ?_
  rw [hset, ← hlen]
  simp

/-- Claim C7: running the fork detector twice in a row equals running it once,
and the detector is a no-op when the launcher has no unconfirmed singletons or
when the pending set equals the branch from the first pending generation on. -/
theorem C7_fork_detector_fixpoint (env : Env) (s : WalletState) (L : B32) :
    potentially_handle_resubmit env (potentially_handle_resubmit env s L) L
      = potentially_handle_resubmit env s L
  ∧ (get_unconfirmed_singletons s.dl_store L = [] →
      potentially_handle_resubmit env s L = s)
  ∧ (∀ p0 ps, sortByGeneration (get_unconfirmed_singletons s.dl_store L) = p0 :: ps →
      listSetEq (p0 :: ps) (get_all_singletons_for_launcher s.dl_store L p0.generation)
        = true →
      potentially_handle_resubmit env s L = s) := by
  refine ⟨?_, fun h => resubmit_of_unconfirmed_nil h,
    fun p0 ps hs hset => resubmit_of_setEq hs hset⟩
  by_cases h0 : get_unconfirmed_singletons s.dl_store L = []
  · rw [@resubmit_of_unconfirmed_nil env s L h0,
      @resubmit_of_unconfirmed_nil env s L h0]
  · cases hsort : sortByGeneration (get_unconfirmed_singletons s.dl_store L) with
    | nil => exact absurd (sortByGeneration_eq_nil hsort) h0
    | cons p0 ps =>
      cases hchk : ((p0 :: ps).length
          == (get_all_singletons_for_launcher s.dl_store L p0.generation).length
        && listSetEq (p0 :: ps)
          (get_all_singletons_for_launcher s.dl_store L p0.generation)) with
      | true =>
        have hs := @resubmit_of_check_true env s L p0 ps hsort hchk
        rw [hs]
        exact hs
      | false =>
        cases hpn : p0.lineage_proof.parent_name with
        | none =>
          have hs := @resubmit_of_parent_none env s L p0 ps hsort hpn
          rw [hs]
          exact hs
        | some pn =>
          rw [resubmit_main_eq hsort hchk hpn]
          apply resubmitCore_post
          intro x hx hxL hxc
          have hm : x ∈ get_unconfirmed_singletons s.dl_store L :=
            List.mem_filter.mpr ⟨hx, by simp [hxL, hxc]⟩
          have hm2 := mem_sortByGeneration.mpr hm
          rw [hsort] at hm2
          exact hm2

/-- The code's `root_changed` boolean agrees with the spec's description:
true exactly when the parent record is missing or some confirmed record of
the branch carries a different root. -/
theorem rootChangedB_iff (s : WalletState) (pn : B32)
    (branch : List SingletonRecord) :
    rootChangedB s pn branch = true ↔
      (get_singleton_record s.dl_store pn = none ∨
        ∃ p, get_singleton_record s.dl_store pn = some p ∧
          ∃ r ∈ branch, r.confirmed = true ∧ r.root ≠ p.root) := by
  unfold rootChangedB
  cases hg : get_singleton_record s.dl_store pn with
  | none => simp [hg]
  | some p =>
    simp only [hg, List.any_eq_true, Bool.and_eq_true, Bool.not_eq_eq_eq_not,
      Bool.not_true, beq_eq_false_iff_ne]
    constructor
    · rintro ⟨r, hr, hc, hne⟩
      exact Or.inr ⟨p, rfl, r, hr, hc, hne⟩
    · rintro (h | ⟨p2, hp2, r, hr, hc, hne⟩)
      · cases h
      · cases Option.some.inj hp2
        exact ⟨r, hr, hc, hne⟩

/-- Claim C4: in `potentially_handle_resubmit`, once a fork is detected, the
rebase is attempted exactly when the root did not change in the sense of the
spec; when the root changed, the operation produces exactly the state with
the relevant transactions and the pending records deleted, authoring
nothing. -/
theorem C4_root_changed_gates_rebase (env : Env) (s : WalletState) (L : B32)
    (p0 : SingletonRecord) (ps : List SingletonRecord) (pn : B32)
    (hsort : sortByGeneration (get_unconfirmed_singletons s.dl_store L) = p0 :: ps)
    (hchk : ((p0 :: ps).length
        == (get_all_singletons_for_launcher s.dl_store L p0.generation).length
      && listSetEq (p0 :: ps)
        (get_all_singletons_for_launcher s.dl_store L p0.generation)) = false)
    (hpn : p0.lineage_proof.parent_name = some pn) :
    ((get_singleton_record s.dl_store pn = none ∨
        ∃ p, get_singleton_record s.dl_store pn = some p ∧
          ∃ r ∈ get_all_singletons_for_launcher s.dl_store L p0.generation,
            r.confirmed = true ∧ r.root ≠ p.root) →
      potentially_handle_resubmit env s L = resubmitDeleteState s (p0 :: ps) ∧
      (resubmitDeleteState s (p0 :: ps)).dl_store
        = s.dl_store.filter
            (fun x => !((p0 :: ps).any (fun sg => x.coin_id == sg.coin_id))) ∧
      (resubmitDeleteState s (p0 :: ps)).tx_store
        = s.tx_store.filter
            (fun t => !((resubmitTxDeletions s (p0 :: ps)).any
              (fun tx => t.name == tx.name))) ∧
      (resubmitDeleteState s (p0 :: ps)).launchers = s.launchers)
  ∧ (¬(get_singleton_record s.dl_store pn = none ∨
        ∃ p, get_singleton_record s.dl_store pn = some p ∧
          ∃ r ∈ get_all_singletons_for_launcher s.dl_store L p0.generation,
            r.confirmed = true ∧ r.root ≠ p.root) →
      potentially_handle_resubmit env s L
        = (match runRebase env L (rebaseCalls (p0 :: ps) (relevantDlTxs s (p0 :: ps)))
            (resubmitDeleteState s (p0 :: ps)) with
          | (some all_txs, s3) => { s3 with tx_store := s3.tx_store ++ all_txs }
          | (none, s3) =>
            { s3 with dl_store := (p0 :: ps).foldl (fun st sg => delete_singleton_record st sg.coin_id) s3.dl_store })) := by
  constructor
  · intro hrc
    have hb : rootChangedB s pn
        (get_all_singletons_for_launcher s.dl_store L p0.generation) = true :=
      (rootChangedB_iff s pn _).mpr hrc
    refine ⟨?_, foldl_delete_eq_filter _ _, foldl_tx_delete_eq_filter _ _, rfl⟩
    rw [resubmit_main_eq hsort hchk hpn]
    unfold resubmitCore
    rw [hb]
    rfl
  · intro hrc
    have hb : rootChangedB s pn
        (get_all_singletons_for_launcher s.dl_store L p0.generation) = false := by
      cases hbv : rootChangedB s pn
          (get_all_singletons_for_launcher s.dl_store L p0.generation)
      · rfl
      · exact absurd ((rootChangedB_iff s pn _).mp hbv) hrc
    rw [resubmit_main_eq hsort hchk hpn]
    unfold resubmitCore
    rw [hb]
    rfl

/-! ## Claims about the authoring operation -/

/-- The error component of an authoring call, `none` on success. -/
def authoringError (x : Except DLError UpdateStateResult × WalletState) :
    Option DLError :=
  match x.1 with
  | Except.error e => some e
  | Except.ok _ => none

theorem buildUpdateState_amount_fields (env : Env) (s : WalletState) (L : B32)
    (r : SingletonRecord) (pn : B32) (amt pk : Nat) (rh nph : Option B32)
    (na : Option Nat) (fee : Nat) (pa : Option (List Announcement)) (ap ann : Bool) :
    (buildUpdateState env s L r pn amt pk rh nph na fee pa ap ann).1.new_record.lineage_proof.amount
        = some amt
      ∧ (buildUpdateState env s L r pn amt pk rh nph na fee pa ap ann).1.primaries.map
          Primary.amount = [na.getD amt] := by
  cases ann
  · exact ⟨rfl, rfl⟩
  · exact ⟨rfl, rfl⟩

/-- Claim C3, amended: `create_update_state_spend` does not validate
`new_amount` at all.  Whether the call succeeds is independent of the supplied
amount; a successful call emits the supplied amount (even, zero or otherwise)
as the CREATE_COIN amount of the successor, while the pending record keeps
the parent's lineage amount. -/
theorem C3_no_new_amount_validation (env : Env) (s : WalletState) (L : B32)
    (rh nph : Option B32) (fee : Nat) (pa : Option (List Announcement))
    (ap ann : Bool) (a : Nat) :
    authoringError (create_update_state_spend env s L rh nph (some a) fee pa ap ann)
      = authoringError (create_update_state_spend env s L rh nph none fee pa ap ann)
  ∧ (∀ res s',
      create_update_state_spend env s L rh nph (some a) fee pa ap ann
        = (Except.ok res, s') →
      res.primaries.map Primary.amount = [a]
      ∧ ∃ r, get_latest_singleton s.dl_store L = some r
          ∧ res.new_record.lineage_proof.amount = r.lineage_proof.amount) := by
  constructor
  · unfold create_update_state_spend
    rcases hsp : get_spendable_singleton_info s L with e | ⟨r, pl⟩
    · simp [authoringError]
    · rcases hpk : env.derivation r.inner_puzzle_hash with _ | pk
      · simp [authoringError, hpk]
      · rcases hpn : r.lineage_proof.parent_name with _ | pn
        · simp [authoringError, hpk, hpn]
        · rcases hamt : r.lineage_proof.amount with _ | amt
          · simp [authoringError, hpk, hpn, hamt]
          · simp [authoringError, hpk, hpn, hamt]
  · intro res s' h
    obtain ⟨r, pl, pk, pn, amt, hsp, hpk, hpn, hamt, hb⟩ := create_ok_inv h
    obtain ⟨hl, _⟩ := spendable_ok_latest hsp
    have hres : res = (buildUpdateState env s L r pn amt pk rh nph (some a)
        fee pa ap ann).1 := by rw [hb]
    obtain ⟨hfa, hfp⟩ := buildUpdateState_amount_fields env s L r pn amt pk rh nph
      (some a) fee pa ap ann
    refine ⟨by rw [hres]; exact hfp, r, hl, ?_⟩
    rw [hres, hfa, hamt]

/-- Claim C10, amended: with `announce_new_state=true` and a caller-supplied
announcement structure, the source mutates the caller's structure in place:
after the call the caller's list is its old value with the synthetic root
announcement (payload the byte `$`) for the ephemeral coin's full puzzle hash
appended — it is not cloned. -/
theorem C10_caller_announcements_mutated (env : Env) (s : WalletState) (L : B32)
    (rh nph : Option B32) (na : Option Nat) (fee : Nat)
    (l : List Announcement) (ap : Bool) (res : UpdateStateResult) (s' : WalletState)
    (h : create_update_state_spend env s L rh nph na fee (some l) ap true
      = (Except.ok res, s')) :
    ∃ eph, res.eph_record = some eph ∧
      res.caller_puzzle_announcements_after
        = some (l ++ [⟨B32.hostFullPuz eph.inner_puzzle_hash eph.root L, 36⟩]) := by
  obtain ⟨r, pl, pk, pn, amt, hsp, hpk, hpn, hamt, hb⟩ := create_ok_inv h
  have hres : res = (buildUpdateState env s L r pn amt pk rh nph na
      fee (some l) ap true).1 := by rw [hb]
  rw [hres]
  exact ⟨_, rfl, rfl⟩

/-- Claim C9: a successful `create_update_state_spend` with
`announce_new_state=true` produces the ephemeral record at the parent's
generation plus one and the final successor at the parent's generation plus
two, assembles a singleton bundle of exactly two coin spends (source line
594), asserts in the inner solution the synthetic puzzle announcement with
payload `$` from the ephemeral coin's full puzzle hash, and, when pending
insertion is requested, appends exactly those two records to the store. -/
theorem C9_announce_new_state (env : Env) (s : WalletState) (L : B32)
    (rh nph : Option B32) (na : Option Nat) (fee : Nat)
    (pa : Option (List Announcement)) (ap : Bool)
    (res : UpdateStateResult) (s' : WalletState)
    (h : create_update_state_spend env s L rh nph na fee pa ap true
      = (Except.ok res, s')) :
    ∃ r, get_latest_singleton s.dl_store L = some r
      ∧ res.eph_record.isSome = true
      ∧ res.dl_coin_spends.length = 2
      ∧ ∀ eph, res.eph_record = some eph →
          eph.generation = r.generation + 1
          ∧ res.new_record.generation = r.generation + 2
          ∧ res.asserted_puzzle_announcements
              = some ((pa.getD []).map Announcement.name
                  ++ [B32.annName (B32.hostFullPuz eph.inner_puzzle_hash eph.root L) 36])
          ∧ (ap = true → s'.dl_store = s.dl_store ++ [res.new_record, eph]) := by
  obtain ⟨r, pl, pk, pn, amt, hsp, hpk, hpn, hamt, hb⟩ := create_ok_inv h
  obtain ⟨hl, _⟩ := spendable_ok_latest hsp
  have hres : res = (buildUpdateState env s L r pn amt pk rh nph na
      fee pa ap true).1 := by rw [hb]
  have hst : s' = (buildUpdateState env s L r pn amt pk rh nph na
      fee pa ap true).2 := by rw [hb]
  refine ⟨r, hl, by rw [hres]; rfl, by rw [hres]; rfl, ?_⟩
  intro eph heph
  rw [hres] at heph
  have heq := Option.some.inj heph
  subst heq
  refine ⟨rfl, by rw [hres]; rfl, ?_, ?_⟩
  · rw [hres]
    cases pa with
    | none => rfl
    | some val =>
      simp only [buildUpdateState]
      simp [List.map_append, Announcement.name]
  · intro hap
    subst hap
    rw [hst, hres]
    rfl

theorem spendable_not_tracked {s : WalletState} {L : B32}
    (h : get_latest_singleton s.dl_store L = none) :
    get_spendable_singleton_info s L = Except.error DLError.notTracked := by
  unfold get_spendable_singleton_info
  rw [h]

theorem spendable_insufficient {s : WalletState} {L : B32} {r : SingletonRecord}
    (h1 : get_latest_singleton s.dl_store L = some r) (h2 : r.confirmed = true)
    (h3 : r.lineage_proof.parent_name = none ∨ r.lineage_proof.amount = none) :
    get_spendable_singleton_info s L = Except.error DLError.insufficientLineage := by
  unfold get_spendable_singleton_info
  rw [h1]
  rcases h3 with h3 | h3
  · simp [h2, h3]
  · rcases hpn : r.lineage_proof.parent_name with _ | pn
    · simp [h2, hpn]
    · simp [h2, hpn, h3]

/-- Claim C6: the four failure modes of `create_update_state_spend` — no
latest record, unconfirmed latest record, incomplete lineage proof, and no
derivation record for the inner puzzle hash — each raise the corresponding
error and leave the wallet state exactly as it was. -/
theorem C6_authoring_errors (env : Env) (s : WalletState) (L : B32)
    (rh nph : Option B32) (na : Option Nat) (fee : Nat)
    (pa : Option (List Announcement)) (ap ann : Bool) :
    (get_latest_singleton s.dl_store L = none →
      create_update_state_spend env s L rh nph na fee pa ap ann
        = (Except.error DLError.notTracked, s))
  ∧ (∀ r, get_latest_singleton s.dl_store L = some r → r.confirmed = false →
      create_update_state_spend env s L rh nph na fee pa ap ann
        = (Except.error DLError.isPending, s))
  ∧ (∀ r, get_latest_singleton s.dl_store L = some r → r.confirmed = true →
      (r.lineage_proof.parent_name = none ∨ r.lineage_proof.amount = none) →
      create_update_state_spend env s L rh nph na fee pa ap ann
        = (Except.error DLError.insufficientLineage, s))
  ∧ (∀ r pl, get_spendable_singleton_info s L = Except.ok (r, pl) →
      env.derivation r.inner_puzzle_hash = none →
      create_update_state_spend env s L rh nph na fee pa ap ann
        = (Except.error DLError.notOwned, s)) := by
  refine ⟨?_, ?_, ?_, ?_⟩
  · intro h
    exact create_error_eq rh nph na fee pa ap ann (spendable_not_tracked h)
  · intro r h1 h2
    exact create_pending rh nph na fee pa ap ann h1 h2
  · intro r h1 h2 h3
    exact create_error_eq rh nph na fee pa ap ann (spendable_insufficient h1 h2 h3)
  · intro r pl hsp hd
    unfold create_update_state_spend
    rw [hsp]
    dsimp only
    rw [hd]

/-! ## Claims about the sync handler and the launcher tracker -/

/-- The successor record the spec describes for a parent spend: coin id from
the first odd CREATE_COIN's puzzle hash and amount, root and inner puzzle
hash from memo positions 1 and 2, confirmed at the given height, generation
one past the parent's. -/
def specSuccessor (parent_name launcher : B32) (pgen : Nat) (c : Condition)
    (root inner : B32) (height timestamp : Nat) : SingletonRecord :=
  { coin_id := B32.coinName parent_name c.puzzle_hash c.amount
    launcher_id := launcher
    root := root
    inner_puzzle_hash := inner
    confirmed := true
    confirmed_at_height := height
    lineage_proof := ⟨some parent_name, some (B32.hostLayerPuz inner root), some c.amount⟩
    generation := pgen + 1
    timestamp := timestamp }

/-- Claim C2: for a matched parent spend with a tracked record, the inserted
successor is built from the first CREATE_COIN condition with an odd amount
(puzzle hash from its first argument, amount from its second, root and inner
puzzle hash from memo positions 1 and 2), is confirmed at the given height
and has the parent's generation plus one; with no odd CREATE_COIN the spend
is a melt, nothing is inserted and the latest record is unchanged. -/
theorem C2_sync_extracts_successor (s : WalletState) (pc : Coin)
    (conds : List Condition) (height timestamp : Nat) (pr : SingletonRecord)
    (hrec : get_singleton_record s.dl_store pc.name = some pr) :
    (∀ c ms root inner,
      conds.find? (fun c => c.opcode == 51 && c.amount % 2 == 1) = some c →
      c.memos = some ms → ms.get? 1 = some root → ms.get? 2 = some inner →
      singleton_removed s true pc conds height timestamp
        = ({ s with dl_store := s.dl_store
              ++ [specSuccessor pc.name pr.launcher_id pr.generation c root inner height timestamp] },
           SyncResult.inserted
             (specSuccessor pc.name pr.launcher_id pr.generation c root inner height timestamp)))
  ∧ (conds.find? (fun c => c.opcode == 51 && c.amount % 2 == 1) = none →
      singleton_removed s true pc conds height timestamp = (s, SyncResult.melted)
      ∧ ∀ L, get_latest_singleton
          (singleton_removed s true pc conds height timestamp).1.dl_store L
        = get_latest_singleton s.dl_store L) := by
  constructor
  · intro c ms root inner hfind hm h1 h2
    unfold singleton_removed
    rw [Bool.not_true]
    dsimp only
    rw [hrec]
    dsimp only
    rw [findOddCreateCoin_eq, hfind]
    dsimp only
    rw [hm]
    dsimp only
    rw [h1, h2]
    rfl
  · intro hfind
    have hsr : singleton_removed s true pc conds height timestamp
        = (s, SyncResult.melted) := by
      unfold singleton_removed
      rw [Bool.not_true]
      dsimp only
      rw [hrec]
      dsimp only
      rw [findOddCreateCoin_eq, hfind]
      rfl
    exact ⟨hsr, fun L => by rw [hsr]⟩

/-- Claim C8, amended: `new_launcher_spend` inspects only the latest record
of the launcher: it promotes it when it is unconfirmed and matches the
genesis successor's coin id, inserts a fresh confirmed generation-0 record
only when the launcher has no record at all, and otherwise treats the spend
as already processed, leaving the store untouched. -/
theorem C8_launcher_spend_cases (s : WalletState) (lc : Coin)
    (sol : LaunchSolution) (height timestamp : Nat) :
    (∀ r, get_latest_singleton s.dl_store lc.name = some r →
      r.coin_id = Coin.name ⟨lc.name, sol.full_puzhash, sol.amount⟩ →
      r.confirmed = false →
      new_launcher_spend s lc sol height timestamp
        = ({ s with
             dl_store := set_confirmed s.dl_store r.coin_id height timestamp
             launchers := s.launchers ++ [(lc.name, lc)] }, LaunchResult.promoted))
  ∧ (∀ r, get_latest_singleton s.dl_store lc.name = some r →
      (r.coin_id ≠ Coin.name ⟨lc.name, sol.full_puzhash, sol.amount⟩ ∨ r.confirmed = true) →
      new_launcher_spend s lc sol height timestamp = (s, LaunchResult.alreadyProcessed))
  ∧ (get_latest_singleton s.dl_store lc.name = none →
      new_launcher_spend s lc sol height timestamp
        = ({ s with
             dl_store := s.dl_store
              ++ [{ coin_id := Coin.name ⟨lc.name, sol.full_puzhash, sol.amount⟩
                    launcher_id := lc.name
                    root := sol.root
                    inner_puzzle_hash := sol.inner_puzhash
                    confirmed := true
                    confirmed_at_height := height
                    lineage_proof := ⟨some lc.name,
                      some (B32.hostLayerPuz sol.inner_puzhash sol.root), some sol.amount⟩
                    generation := 0
                    timestamp := timestamp }]
             launchers := s.launchers ++ [(lc.name, lc)] }, LaunchResult.insertedGenesis)) := by
  refine ⟨?_, ?_, ?_⟩
  · intro r hl hid hconf
    unfold new_launcher_spend
    dsimp only
    rw [hl]
    dsimp only
    rw [hid, hconf]
    simp
  · intro r hl hcase
    unfold new_launcher_spend
    dsimp only
    rw [hl]
    dsimp only
    have hcond : (r.coin_id == Coin.name ⟨lc.name, sol.full_puzhash, sol.amount⟩
        && !r.confirmed) = false := by
      rcases hcase with hne | hc
      · simp [beq_eq_false_iff_ne.mpr hne]
      · simp [hc]
    rw [hcond]
    simp
  · intro hl
    unfold new_launcher_spend
    dsimp only
    rw [hl]

/-! ## Claim C1: the derivation invariant -/

theorem invariantB_eq {r : SingletonRecord} {pn : B32} {amt : Nat}
    (hpn : r.lineage_proof.parent_name = some pn)
    (hamt : r.lineage_proof.amount = some amt)
    (hr : invariantB r = true) :
    r.coin_id = B32.coinName pn
      (B32.hostFullPuz r.inner_puzzle_hash r.root r.launcher_id) amt := by
  unfold invariantB at hr
  rw [hpn, hamt] at hr
  exact eq_of_beq hr

theorem buildUpdateState_invariant (env : Env) (s : WalletState) (L : B32)
    (r : SingletonRecord) (pn : B32) (amt pk : Nat) (rh nph : Option B32)
    (na : Option Nat) (fee : Nat) (pa : Option (List Announcement)) (ap ann : Bool)
    (hrid : r.coin_id
      = B32.coinName pn (B32.hostFullPuz r.inner_puzzle_hash r.root r.launcher_id) amt)
    (hpk2 : B32.puzzleForPk pk = r.inner_puzzle_hash)
    (hrl : r.launcher_id = L) :
    invariantB (buildUpdateState env s L r pn amt pk rh nph na fee pa ap ann).1.new_record
      = true
    ∧ ∀ eph, (buildUpdateState env s L r pn amt pk rh nph na fee pa ap ann).1.eph_record
        = some eph → invariantB eph = true := by
  cases ann
  · constructor
    · show (B32.coinName
          (Coin.name ⟨pn, B32.hostFullPuz (B32.puzzleForPk pk) r.root L, amt⟩)
          (B32.hostFullPuz (nph.getD env.newPuzzleHash) (rh.getD r.root) L) amt
        == B32.coinName r.coin_id
          (B32.hostFullPuz (nph.getD env.newPuzzleHash) (rh.getD r.root) L) amt) = true
      rw [hrid, hpk2, hrl, Coin.name]
      simp
    · intro eph heph
      cases heph
  · constructor
    · simp [invariantB, buildUpdateState, Coin.name]
    · intro eph heph
      have heq := Option.some.inj heph
      subst heq
      simp [invariantB, buildUpdateState, Coin.name]

/-- Claim C1, amended: every record the wallet inserts satisfies the
derivation invariant, provided the chain-observed data is itself consistent:
for `generate_new_reporter` unconditionally; for `new_launcher_spend` when
the launcher solution's full puzzle hash matches the derivation from its own
inner puzzle hash and root (the `match_dl_launcher` validation); for
`create_update_state_spend` when the parent's record satisfies the invariant
and the derivation index returns the parent's inner puzzle (this covers in
particular a caller-supplied `new_amount` different from the parent's amount,
which never enters the record); and for `singleton_removed` when the observed
CREATE_COIN's puzzle hash matches the derivation from its memo hints. -/
theorem C1_derivation_invariant :
    (∀ lp lph iph root, invariantB (generate_new_reporter_record lp lph iph root) = true)
  ∧ (∀ s lc sol height timestamp,
      sol.full_puzhash = B32.hostFullPuz sol.inner_puzhash sol.root lc.name →
      ∀ rec ∈ (new_launcher_spend s lc sol height timestamp).1.dl_store,
        rec ∈ s.dl_store ∨ invariantB rec = true
        ∨ ∃ orig ∈ s.dl_store, invariantB rec = invariantB orig)
  ∧ (∀ env s L rh nph na fee pa ap ann res s',
      create_update_state_spend env s L rh nph na fee pa ap ann = (Except.ok res, s') →
      (∀ r, get_latest_singleton s.dl_store L = some r → invariantB r = true) →
      (∀ r pk, get_latest_singleton s.dl_store L = some r →
        env.derivation r.inner_puzzle_hash = some pk →
        B32.puzzleForPk pk = r.inner_puzzle_hash) →
      ∀ rec ∈ s'.dl_store, rec ∈ s.dl_store ∨ invariantB rec = true)
  ∧ (∀ s pc conds height timestamp pr c ms root inner,
      get_singleton_record s.dl_store pc.name = some pr →
      findOddCreateCoin conds = some c → c.memos = some ms →
      ms.get? 1 = some root → ms.get? 2 = some inner →
      c.puzzle_hash = B32.hostFullPuz inner root pr.launcher_id →
      ∀ rec ∈ (singleton_removed s true pc conds height timestamp).1.dl_store,
        rec ∈ s.dl_store ∨ invariantB rec = true) := by
  refine ⟨?_, ?_, ?_, ?_⟩
  · intro lp lph iph root
    simp [invariantB, generate_new_reporter_record]
  · intro s lc sol height timestamp hfull rec hrec
    unfold new_launcher_spend at hrec
    dsimp only at hrec
    rcases hl : get_latest_singleton s.dl_store lc.name with _ | r
    · rw [hl] at hrec
      dsimp only at hrec
      rcases List.mem_append.mp hrec with hmem | hmem
      · exact Or.inl hmem
      · refine Or.inr (Or.inl ?_)
        have heq : rec = _ := List.mem_singleton.mp hmem
        subst heq
        simp only [invariantB, Coin.name]
        rw [hfull]
        simp [Coin.name]
    · rw [hl] at hrec
      dsimp only at hrec
      by_cases hcond : (r.coin_id == (Coin.name ⟨lc.name, sol.full_puzhash, sol.amount⟩)
          && !r.confirmed) = true
      · rw [hcond, if_pos rfl] at hrec
        unfold set_confirmed at hrec
        obtain ⟨orig, horig, hmap⟩ := List.mem_map.mp hrec
        refine Or.inr (Or.inr ⟨orig, horig, ?_⟩)
        by_cases hco : (orig.coin_id == r.coin_id) = true
        · rw [hco] at hmap
          rw [← hmap]
          rfl
        · rw [Bool.eq_false_iff.mpr hco] at hmap
          rw [← hmap, if_neg Bool.false_ne_true]
      · rw [Bool.eq_false_iff.mpr hcond, if_neg Bool.false_ne_true] at hrec
        exact Or.inl hrec
  · intro env s L rh nph na fee pa ap ann res s' h hinv hder rec hrec
    obtain ⟨r, pl, pk, pn, amt, hsp, hpk, hpn, hamt, hb⟩ := create_ok_inv h
    obtain ⟨hl, _⟩ := spendable_ok_latest hsp
    have hrl : r.launcher_id = L := (get_latest_mem hl).2
    have hrid := invariantB_eq hpn hamt (hinv r hl)
    obtain ⟨hnew, heph⟩ := buildUpdateState_invariant env s L r pn amt pk rh nph na fee
      pa ap ann hrid (hder r pk hl hpk) hrl
    have hst : s' = (buildUpdateState env s L r pn amt pk rh nph na fee pa ap ann).2 := by
      rw [hb]
    rw [hst] at hrec
    cases ap
    · cases ann
      · rcases List.mem_append.mp hrec with hmem | hmem
        · exact Or.inl hmem
        · cases hmem
      · rcases List.mem_append.mp hrec with hmem | hmem
        · exact Or.inl hmem
        · cases hmem
    · cases ann
      · rcases List.mem_append.mp hrec with hmem | hmem
        · exact Or.inl hmem
        · have heq : rec = _ := List.mem_singleton.mp hmem
          subst heq
          exact Or.inr hnew
      · rcases List.mem_append.mp hrec with hmem | hmem
        · exact Or.inl hmem
        · rcases List.mem_cons.mp hmem with heq | hmem2
          · subst heq
            exact Or.inr hnew
          · have heq : rec = _ := List.mem_singleton.mp hmem2
            subst heq
            exact Or.inr (heph _ rfl)
  · intro s pc conds height timestamp pr c ms root inner hrec0 hfind hm h1 h2 hhint
      rec hrec
    unfold singleton_removed at hrec
    rw [Bool.not_true] at hrec
    dsimp only at hrec
    rw [hrec0] at hrec
    dsimp only at hrec
    rw [hfind] at hrec
    dsimp only at hrec
    rw [hm] at hrec
    dsimp only at hrec
    rw [h1, h2] at hrec
    dsimp only at hrec
    rcases List.mem_append.mp hrec with hmem | hmem
    · exact Or.inl hmem
    · have heq : rec = _ := List.mem_singleton.mp hmem
      subst heq
      refine Or.inr ?_
      simp only [invariantB]
      rw [hhint]
      simp

/-! ## Concrete fixtures

A small wallet universe used by the witnesses and counterexamples: launcher
`LW`, an environment whose derivation index knows exactly the puzzle of
public key 7, a confirmed head record owned by the wallet, and a fork
scenario with two stale pending generations. -/

def LW : B32 := B32.raw 100

def RW : B32 := B32.raw 3

def cPW : B32 := B32.raw 10

def envW : Env :=
  { derivation := fun ph => if ph == B32.puzzleForPk 7 then some 7 else none
    newPuzzleHash := B32.raw 200
    chiaTxName := B32.raw 201
    chiaTxRemovals := [⟨B32.raw 202, B32.raw 203, 5⟩] }

def rParentW : SingletonRecord :=
  { coin_id := cPW
    launcher_id := LW
    root := RW
    inner_puzzle_hash := B32.raw 12
    confirmed := true
    confirmed_at_height := 3
    lineage_proof := ⟨some (B32.raw 13), some (B32.raw 14), some 1⟩
    generation := 0
    timestamp := 33 }

def rHeadW : SingletonRecord :=
  { coin_id := B32.coinName cPW (B32.hostFullPuz (B32.puzzleForPk 7) RW LW) 1
    launcher_id := LW
    root := RW
    inner_puzzle_hash := B32.puzzleForPk 7
    confirmed := true
    confirmed_at_height := 4
    lineage_proof := ⟨some cPW, some (B32.raw 11), some 1⟩
    generation := 1
    timestamp := 44 }

def sW : WalletState := { dl_store := [rParentW, rHeadW], tx_store := [], launchers := [] }

def sEmpty : WalletState := { dl_store := [], tx_store := [], launchers := [] }

def rPendW : SingletonRecord := { rHeadW with confirmed := false }

def sPend : WalletState := { dl_store := [rParentW, rPendW], tx_store := [], launchers := [] }

def rNoLinW : SingletonRecord := { rHeadW with lineage_proof := ⟨none, none, none⟩ }

def sNoLin : WalletState := { dl_store := [rParentW, rNoLinW], tx_store := [], launchers := [] }

def rNotOwnW : SingletonRecord := { rHeadW with inner_puzzle_hash := B32.raw 999 }

def sNotOwn : WalletState := { dl_store := [rParentW, rNotOwnW], tx_store := [], launchers := [] }

def aW : Announcement := ⟨B32.raw 50, 9⟩

/-- The record `create_update_state_spend envW sW LW (some (raw 77))` builds. -/
def newRecW : SingletonRecord :=
  { coin_id := B32.coinName
      (B32.coinName cPW (B32.hostFullPuz (B32.puzzleForPk 7) RW LW) 1)
      (B32.hostFullPuz (B32.raw 200) (B32.raw 77) LW) 1
    launcher_id := LW
    root := B32.raw 77
    inner_puzzle_hash := B32.raw 200
    confirmed := false
    confirmed_at_height := 0
    lineage_proof := ⟨some (B32.coinName cPW (B32.hostFullPuz (B32.puzzleForPk 7) RW LW) 1),
      some (B32.raw 200), some 1⟩
    generation := 2
    timestamp := 0 }

/-! Fixtures for the launcher tracker. -/

def lcW : Coin := ⟨B32.raw 30, B32.raw 31, 1⟩

def solW : LaunchSolution :=
  ⟨B32.hostFullPuz (B32.raw 8) (B32.raw 7) lcW.name, 1, B32.raw 7, B32.raw 8⟩

def recUW : SingletonRecord :=
  { coin_id := Coin.name ⟨lcW.name, solW.full_puzhash, 1⟩
    launcher_id := lcW.name
    root := B32.raw 7
    inner_puzzle_hash := B32.raw 8
    confirmed := false
    confirmed_at_height := 0
    lineage_proof := ⟨some lcW.name, some (B32.hostLayerPuz (B32.raw 8) (B32.raw 7)), some 1⟩
    generation := 0
    timestamp := 0 }

def s8p : WalletState := { dl_store := [recUW], tx_store := [], launchers := [] }

def recCW : SingletonRecord := { recUW with confirmed := true, confirmed_at_height := 9 }

def s8c : WalletState := { dl_store := [recCW], tx_store := [], launchers := [] }

/-- The genesis record inserted for `(sEmpty, lcW, solW)` at height 5. -/
def gRecW : SingletonRecord :=
  { coin_id := Coin.name ⟨lcW.name, solW.full_puzhash, 1⟩
    launcher_id := lcW.name
    root := B32.raw 7
    inner_puzzle_hash := B32.raw 8
    confirmed := true
    confirmed_at_height := 5
    lineage_proof := ⟨some lcW.name, some (B32.hostLayerPuz (B32.raw 8) (B32.raw 7)), some 1⟩
    generation := 0
    timestamp := 6 }

/-! Fixtures for the sync handler. -/

def pcY : Coin := ⟨B32.raw 45, B32.hostFullPuz (B32.raw 46) (B32.raw 47) (B32.raw 48), 1⟩

def prY : SingletonRecord :=
  { coin_id := pcY.name
    launcher_id := B32.raw 48
    root := B32.raw 47
    inner_puzzle_hash := B32.raw 46
    confirmed := true
    confirmed_at_height := 3
    lineage_proof := ⟨some (B32.raw 45), some (B32.raw 49), some 1⟩
    generation := 2
    timestamp := 0 }

def sY : WalletState := { dl_store := [prY], tx_store := [], launchers := [] }

def cIns : Condition := ⟨51, B32.raw 6, 1, some [B32.raw 48, B32.raw 7, B32.raw 8]⟩

/-- A condition list whose first odd CREATE_COIN is `cIns`: an unrelated
opcode, then an even CREATE_COIN, then `cIns`, then a later odd CREATE_COIN
that must be ignored. -/
def condsIns : List Condition :=
  [⟨60, B32.raw 0, 0, none⟩, ⟨51, B32.raw 60, 2, none⟩, cIns,
   ⟨51, B32.raw 61, 3, some [B32.raw 0, B32.raw 1, B32.raw 2]⟩]

def condsMelt : List Condition := [⟨51, B32.raw 60, 2, none⟩, ⟨60, B32.raw 0, 0, none⟩]

def cGoodHint : Condition :=
  ⟨51, B32.hostFullPuz (B32.raw 8) (B32.raw 7) (B32.raw 48), 1,
   some [B32.raw 48, B32.raw 7, B32.raw 8]⟩

def insRecW : SingletonRecord :=
  { coin_id := B32.coinName pcY.name (B32.hostFullPuz (B32.raw 8) (B32.raw 7) (B32.raw 48)) 1
    launcher_id := B32.raw 48
    root := B32.raw 7
    inner_puzzle_hash := B32.raw 8
    confirmed := true
    confirmed_at_height := 10
    lineage_proof := ⟨some pcY.name, some (B32.hostLayerPuz (B32.raw 8) (B32.raw 7)), some 1⟩
    generation := 3
    timestamp := 20 }

/-! Fixtures for the fork detector: launcher `LW` with confirmed records
`rPW` (generation 1) and `rNW` (generation 2, the on-chain successor that
supplanted the wallet's pending branch), stale pending records `p1W` and
`p2W` at generations 2 and 3, and their authoring transactions. -/

def rPW : SingletonRecord :=
  { coin_id := cPW
    launcher_id := LW
    root := RW
    inner_puzzle_hash := B32.raw 12
    confirmed := true
    confirmed_at_height := 3
    lineage_proof := ⟨some (B32.raw 13), some (B32.raw 14), some 1⟩
    generation := 1
    timestamp := 33 }

def c1W : B32 := Coin.name ⟨B32.raw 300, B32.raw 301, 1⟩

def c2W : B32 := Coin.name ⟨B32.raw 302, B32.raw 303, 1⟩

def p1W : SingletonRecord :=
  { coin_id := c1W
    launcher_id := LW
    root := RW
    inner_puzzle_hash := B32.raw 15
    confirmed := false
    confirmed_at_height := 0
    lineage_proof := ⟨some cPW, some (B32.raw 16), some 1⟩
    generation := 2
    timestamp := 0 }

def p2W : SingletonRecord :=
  { coin_id := c2W
    launcher_id := LW
    root := RW
    inner_puzzle_hash := B32.raw 17
    confirmed := false
    confirmed_at_height := 0
    lineage_proof := ⟨some c1W, some (B32.raw 18), some 1⟩
    generation := 3
    timestamp := 0 }

def rNW : SingletonRecord :=
  { coin_id := B32.raw 20
    launcher_id := LW
    root := RW
    inner_puzzle_hash := B32.puzzleForPk 7
    confirmed := true
    confirmed_at_height := 5
    lineage_proof := ⟨some cPW, some (B32.raw 19), some 1⟩
    generation := 2
    timestamp := 55 }

def tx1W : TxRecord :=
  { name := cPW
    wallet_id := 2
    confirmed := false
    spend_bundle := some ⟨[], [], 0, 1⟩
    additions := [⟨B32.raw 300, B32.raw 301, 1⟩]
    removals := []
    fee_amount := 0 }

def tx2W : TxRecord :=
  { name := c1W
    wallet_id := 2
    confirmed := false
    spend_bundle := some ⟨[], [], 0, 1⟩
    additions := [⟨B32.raw 302, B32.raw 303, 1⟩]
    removals := []
    fee_amount := 0 }

def sC5 : WalletState :=
  { dl_store := [rPW, p1W, p2W, rNW], tx_store := [tx1W, tx2W], launchers := [] }

def rNW2 : SingletonRecord := { rNW with root := B32.raw 4 }

def sC4 : WalletState :=
  { dl_store := [rPW, p1W, p2W, rNW2], tx_store := [tx1W, tx2W], launchers := [] }

def u1W : SingletonRecord :=
  { coin_id := B32.raw 70
    launcher_id := LW
    root := RW
    inner_puzzle_hash := B32.raw 71
    confirmed := false
    confirmed_at_height := 0
    lineage_proof := ⟨some cPW, some (B32.raw 72), some 1⟩
    generation := 1
    timestamp := 0 }

def sC7 : WalletState := { dl_store := [rParentW, u1W], tx_store := [], launchers := [] }

/-! ## Claim C5: the exception cleanup of the rebase -/

/-- Claim C5 fails on the code: in `sC5` the fork is detected with an
unchanged root, the first re-authoring call succeeds and inserts a fresh
pending record, the second call raises Pending, and the `except` handler then
deletes the coin ids of the OLD `unconfirmed_singletons` (already deleted)
instead of the records produced during the attempt, as its own comment says
it should.  The freshly authored pending record therefore survives: the final
store holds exactly one unconfirmed record for the launcher, even though the
earlier deletions (old pending records and their transactions) were performed
and not rolled back. -/
theorem C5_cleanup_misses_attempt_records :
    (potentially_handle_resubmit envW sC5 LW).tx_store = []
  ∧ (get_unconfirmed_singletons (potentially_handle_resubmit envW sC5 LW).dl_store LW).length
      = 1
  ∧ (p1W ∈ (potentially_handle_resubmit envW sC5 LW).dl_store) = False
  ∧ (p2W ∈ (potentially_handle_resubmit envW sC5 LW).dl_store) = False
  ∧ (tx1W ∈ (potentially_handle_resubmit envW sC5 LW).tx_store) = False := by
  refine ⟨by decide, by decide, by decide, by decide, by decide⟩

/-! ## Counterexamples -/

/-- Claim C1, counterexample: starting from a store whose single record
satisfies the derivation invariant, one `singleton_removed` call whose first
odd CREATE_COIN carries a puzzle hash inconsistent with its memo hints
inserts a record violating the invariant — the code never checks the hint
against the created puzzle hash. -/
theorem C1_counterexample :
    sY.dl_store.all invariantB = true
  ∧ ((singleton_removed sY true pcY [⟨51, B32.raw 6, 1,
        some [B32.raw 48, B32.raw 7, B32.raw 8]⟩] 10 20).1.dl_store.filter
      (fun r => !(invariantB r))).length = 1 := by
  exact ⟨by decide, by decide⟩

/-- The amounts of the primaries of a successful authoring call. -/
def okPrimaryAmounts (x : Except DLError UpdateStateResult × WalletState) : List Nat :=
  match x.1 with
  | Except.ok res => res.primaries.map Primary.amount
  | Except.error _ => []

/-- The caller's announcement structure after a successful authoring call. -/
def callerAfter (x : Except DLError UpdateStateResult × WalletState) :
    Option (List Announcement) :=
  match x.1 with
  | Except.ok res => res.caller_puzzle_announcements_after
  | Except.error _ => none

/-- The result payload of a successful authoring call. -/
def okResult (x : Except DLError UpdateStateResult × WalletState) :
    Option UpdateStateResult :=
  match x.1 with
  | Except.ok res => some res
  | Except.error _ => none

/-- Claim C3, counterexample: supplying an even (2) or zero `new_amount` does
not fail — no InvalidAmount error exists in the code — and the even amount is
emitted as the successor's CREATE_COIN amount. -/
theorem C3_counterexample :
    authoringError (create_update_state_spend envW sW LW (some (B32.raw 77)) none (some 2)
        0 none true false) = none
  ∧ authoringError (create_update_state_spend envW sW LW (some (B32.raw 77)) none (some 0)
        0 none true false) = none
  ∧ okPrimaryAmounts (create_update_state_spend envW sW LW (some (B32.raw 77)) none (some 2)
        0 none true false) = [2] := by
  exact ⟨by decide, by decide, by decide⟩

/-- Claim C8, counterexample: the store holds a confirmed record for the
genesis coin, so no unconfirmed record with that coin id exists; the claim
then demands a fresh generation-0 record be inserted, but the code treats the
spend as already processed and inserts nothing. -/
theorem C8_counterexample :
    (s8c.dl_store.filter (fun r => !r.confirmed)).length = 0
  ∧ new_launcher_spend s8c lcW solW 9 90 = (s8c, LaunchResult.alreadyProcessed)
  ∧ (new_launcher_spend s8c lcW solW 9 90).1.dl_store.length = s8c.dl_store.length := by
  exact ⟨by decide, by decide, by decide⟩

/-- Claim C10, counterexample: a successful announce call with a caller
supplied announcement list leaves the caller's structure changed — the
synthetic root announcement has been appended to it in place, so it is not
treated as cloned. -/
theorem C10_counterexample :
    authoringError (create_update_state_spend envW sW LW (some (B32.raw 77)) none none 0
        (some [aW]) true true) = none
  ∧ callerAfter (create_update_state_spend envW sW LW (some (B32.raw 77)) none none 0
        (some [aW]) true true) ≠ some [aW] := by
  exact ⟨by decide, by decide⟩

/-! ## Witnesses -/

theorem C1_witness :
    invariantB (generate_new_reporter_record (B32.raw 1) (B32.raw 2) (B32.raw 3) (B32.raw 4))
      = true
  ∧ invariantB gRecW = true
  ∧ invariantB newRecW = true
  ∧ invariantB insRecW = true := by
  have hthm := C1_derivation_invariant
  refine ⟨hthm.1 (B32.raw 1) (B32.raw 2) (B32.raw 3) (B32.raw 4), ?_, ?_, ?_⟩
  · rcases hthm.2.1 sEmpty lcW solW 5 6 rfl gRecW (by decide) with h | h | ⟨orig, ho, _⟩
    · exact absurd h (List.not_mem_nil gRecW)
    · exact h
    · exact absurd ho (List.not_mem_nil orig)
  · have hinv : ∀ r, get_latest_singleton sW.dl_store LW = some r → invariantB r = true := by
      intro r hr
      have hr2 : some rHeadW = some r := hr
      cases Option.some.inj hr2
      decide
    have hder : ∀ r pk, get_latest_singleton sW.dl_store LW = some r →
        envW.derivation r.inner_puzzle_hash = some pk →
        B32.puzzleForPk pk = r.inner_puzzle_hash := by
      intro r pk hr hd
      have hr2 : some rHeadW = some r := hr
      cases Option.some.inj hr2
      have hd2 : some 7 = some pk := hd
      cases Option.some.inj hd2
      rfl
    rcases hthm.2.2.1 envW sW LW (some (B32.raw 77)) none none 0 none true false _ _ rfl
        hinv hder newRecW (by decide) with h | h
    · exact absurd h (by decide)
    · exact h
  · rcases hthm.2.2.2 sY pcY [cGoodHint] 10 20 prY cGoodHint
        [B32.raw 48, B32.raw 7, B32.raw 8] (B32.raw 7) (B32.raw 8)
        (by decide) (by decide) rfl rfl rfl rfl insRecW (by decide) with h | h
    · exact absurd h (by decide)
    · exact h

theorem C2_witness :
    singleton_removed sY true pcY condsIns 10 20
      = ({ sY with dl_store := sY.dl_store
            ++ [specSuccessor pcY.name prY.launcher_id prY.generation cIns
                  (B32.raw 7) (B32.raw 8) 10 20] },
         SyncResult.inserted
           (specSuccessor pcY.name prY.launcher_id prY.generation cIns
             (B32.raw 7) (B32.raw 8) 10 20))
  ∧ singleton_removed sY true pcY condsMelt 10 20 = (sY, SyncResult.melted) := by
  have h1 := C2_sync_extracts_successor sY pcY condsIns 10 20 prY (by decide)
  have h2 := C2_sync_extracts_successor sY pcY condsMelt 10 20 prY (by decide)
  exact ⟨h1.1 cIns [B32.raw 48, B32.raw 7, B32.raw 8] (B32.raw 7) (B32.raw 8)
      (by decide) rfl rfl rfl,
    (h2.2 (by decide)).1⟩

theorem C3_witness :
    authoringError (create_update_state_spend envW sW LW (some (B32.raw 77)) none (some 2)
        0 none true false)
      = authoringError (create_update_state_spend envW sW LW (some (B32.raw 77)) none none
        0 none true false)
  ∧ okPrimaryAmounts (create_update_state_spend envW sW LW (some (B32.raw 77)) none (some 2)
        0 none true false) = [2] := by
  have hthm := C3_no_new_amount_validation envW sW LW (some (B32.raw 77)) none 0 none
    true false 2
  refine ⟨hthm.1, ?_⟩
  obtain ⟨res, s', hcr⟩ : ∃ res s',
      create_update_state_spend envW sW LW (some (B32.raw 77)) none (some 2) 0 none
        true false = (Except.ok res, s') := ⟨_, _, rfl⟩
  have h2 := (hthm.2 res s' hcr).1
  show okPrimaryAmounts _ = [2]
  rw [hcr]
  exact h2

theorem C4_witness :
    potentially_handle_resubmit envW sC4 LW = resubmitDeleteState sC4 [p1W, p2W] :=
  ((C4_root_changed_gates_rebase envW sC4 LW p1W [p2W] cPW (by decide) (by decide) rfl).1
    (Or.inr ⟨rPW, by decide, rNW2, by decide, rfl, by decide⟩)).1

theorem C6_witness :
    create_update_state_spend envW sEmpty LW none none none 0 none true false
      = (Except.error DLError.notTracked, sEmpty)
  ∧ create_update_state_spend envW sPend LW none none none 0 none true false
      = (Except.error DLError.isPending, sPend)
  ∧ create_update_state_spend envW sNoLin LW none none none 0 none true false
      = (Except.error DLError.insufficientLineage, sNoLin)
  ∧ create_update_state_spend envW sNotOwn LW none none none 0 none true false
      = (Except.error DLError.notOwned, sNotOwn) :=
  ⟨(C6_authoring_errors envW sEmpty LW none none none 0 none true false).1 rfl,
   (C6_authoring_errors envW sPend LW none none none 0 none true false).2.1 rPendW
     (by decide) rfl,
   (C6_authoring_errors envW sNoLin LW none none none 0 none true false).2.2.1 rNoLinW
     (by decide) rfl (Or.inl rfl),
   (C6_authoring_errors envW sNotOwn LW none none none 0 none true false).2.2.2 rNotOwnW
     rParentW.lineage_proof rfl rfl⟩

theorem C7_witness :
    potentially_handle_resubmit envW (potentially_handle_resubmit envW sC5 LW) LW
      = potentially_handle_resubmit envW sC5 LW
  ∧ potentially_handle_resubmit envW sW LW = sW
  ∧ potentially_handle_resubmit envW sC7 LW = sC7 :=
  ⟨(C7_fork_detector_fixpoint envW sC5 LW).1,
   (C7_fork_detector_fixpoint envW sW LW).2.1 (by decide),
   (C7_fork_detector_fixpoint envW sC7 LW).2.2 u1W [] (by decide) (by decide)⟩

theorem C8_witness :
    new_launcher_spend s8p lcW solW 9 90
      = ({ s8p with
           dl_store := set_confirmed s8p.dl_store recUW.coin_id 9 90
           launchers := s8p.launchers ++ [(lcW.name, lcW)] }, LaunchResult.promoted)
  ∧ new_launcher_spend s8c lcW solW 9 90 = (s8c, LaunchResult.alreadyProcessed)
  ∧ new_launcher_spend sEmpty lcW solW 5 6
      = ({ sEmpty with
           dl_store := sEmpty.dl_store
            ++ [{ coin_id := Coin.name ⟨lcW.name, solW.full_puzhash, solW.amount⟩
                  launcher_id := lcW.name
                  root := solW.root
                  inner_puzzle_hash := solW.inner_puzhash
                  confirmed := true
                  confirmed_at_height := 5
                  lineage_proof := ⟨some lcW.name,
                    some (B32.hostLayerPuz solW.inner_puzhash solW.root), some solW.amount⟩
                  generation := 0
                  timestamp := 6 }]
           launchers := sEmpty.launchers ++ [(lcW.name, lcW)] },
         LaunchResult.insertedGenesis) :=
  ⟨(C8_launcher_spend_cases s8p lcW solW 9 90).1 recUW (by decide) (by decide) rfl,
   (C8_launcher_spend_cases s8c lcW solW 9 90).2.1 recCW (by decide) (Or.inr rfl),
   (C8_launcher_spend_cases sEmpty lcW solW 5 6).2.2 (by decide)⟩

theorem C9_witness :
    (okResult (create_update_state_spend envW sW LW (some (B32.raw 77)) none none 0
        (some [aW]) true true)).map (fun res => res.dl_coin_spends.length) = some 2
  ∧ (okResult (create_update_state_spend envW sW LW (some (B32.raw 77)) none none 0
        (some [aW]) true true)).map (fun res => res.eph_record.map SingletonRecord.generation)
      = some (some 2)
  ∧ (okResult (create_update_state_spend envW sW LW (some (B32.raw 77)) none none 0
        (some [aW]) true true)).map (fun res => res.new_record.generation) = some 3
  ∧ (create_update_state_spend envW sW LW (some (B32.raw 77)) none none 0
        (some [aW]) true true).2.dl_store.length = 4 := by
  have h := C9_announce_new_state envW sW LW (some (B32.raw 77)) none none 0
    (some [aW]) true _ _ rfl
  obtain ⟨r, hl, hsome, hlen, hall⟩ := h
  have hl2 : some rHeadW = some r := hl
  cases Option.some.inj hl2
  have hx := hall _ rfl
  obtain ⟨hg1, hg2, hass, hst⟩ := hx
  refine ⟨congrArg some hlen, congrArg (fun n => some (some n)) hg1,
    congrArg some hg2, ?_⟩
  exact congrArg List.length (hst rfl)

theorem C10_witness :
    callerAfter (create_update_state_spend envW sW LW (some (B32.raw 77)) none none 0
        (some [aW]) true true)
      = some ([aW] ++ [⟨B32.hostFullPuz (B32.announceOnlyPuz (B32.raw 200) 1 LW (B32.raw 77))
          (B32.raw 77) LW, 36⟩]) := by
  obtain ⟨eph, heph, hafter⟩ := C10_caller_announcements_mutated envW sW LW
    (some (B32.raw 77)) none none 0 [aW] true _ _ rfl
  cases Option.some.inj heph
  exact hafter

end DataLayer
